import Mathlib

/-!
Verification of `scripts/config_generator.py` (docker-builder).

The program is a single-class configuration generator.  Every operation is a
pure transformation of a small immutable context (working directory, ComfyUI
directory, detected GPU memory) into a document (a JSON-like tree) or a text
block, plus one effectful `save_config` that writes a document to disk.

The shallow embedding below translates each method of `ConfigGenerator`
directly from the Python source:

* `JValue` is the untyped document tree (`Dict[str, Any]` values built from
  strings, ints, float literals, booleans, lists and dicts).  A Python float
  literal such as `0.9` is embedded as `JValue.dec 9 1`, meaning
  `9 / 10 ^ 1` printed with exactly one fractional digit — exact for every
  float literal occurring in the source (0.7, 0.8, 0.9, 1.0, 7.0).
* The GPU probe (`subprocess.run(['nvidia-smi', ...])`) is an external
  collaborator; it enters the embedding as an `Option String`: `none` for a
  failed invocation (`FileNotFoundError` / `CalledProcessError`), `some out`
  for a run that produced stdout `out`.
* The filesystem behind `save_config` is a `FileSys` value: an association
  of paths to contents plus a predicate saying which paths can be opened for
  writing.  `open(path, 'w')` either truncates/creates the file (when
  permitted) or raises, which the embedding represents with `Except`.
* Paths (`self.work_dir` is a `pathlib.Path`) are embedded as their rendered
  string form, since the source only ever interpolates them into strings.
-/

namespace DockerBuilder

/-- Untyped document tree: the shape of every `Dict[str, Any]` the generator
builds.  `dec m e` is the float literal `m / 10 ^ e` carrying `e` fractional
digits. -/
inductive JValue where
  | str (s : String)
  | int (n : Int)
  | dec (m : Int) (e : Nat)
  | bool (b : Bool)
  | arr (xs : List JValue)
  | obj (kvs : List (String × JValue))

mutual

/-- Structural equality test on documents (Python `==` on the trees). -/
def jeq : JValue → JValue → Bool
  | .str a, .str b => a = b
  | .int a, .int b => a = b
  | .dec a e, .dec b f => a = b && e = f
  | .bool a, .bool b => a = b
  | .arr xs, .arr ys => jeqList xs ys
  | .obj xs, .obj ys => jeqKVs xs ys
  | _, _ => false

/-- Pointwise `jeq` on element lists. -/
def jeqList : List JValue → List JValue → Bool
  | [], [] => true
  | x :: xs, y :: ys => jeq x y && jeqList xs ys
  | _, _ => false

/-- Pointwise `jeq` on key/value lists. -/
def jeqKVs : List (String × JValue) → List (String × JValue) → Bool
  | [], [] => true
  | (k, v) :: xs, (l, w) :: ys => k = l && jeq v w && jeqKVs xs ys
  | _, _ => false

end


/-- Association lookup on a document's key/value list, i.e. Python
`d.get(k)` on the dict a `JValue.obj` embeds. -/
def getKey (kvs : List (String × JValue)) (k : String) : Option JValue :=
  match kvs with
  | [] => none
  | (k', v) :: rest => if k' = k then some v else getKey rest k

/-- Field access `doc[k]` on a document, `none` when the document is not a
dict or lacks the key. -/
def jget (v : JValue) (k : String) : Option JValue :=
  match v with
  | .obj kvs => getKey kvs k
  | _ => none

/-- The keys of a document in insertion order (Python `dict.keys()`). -/
def jkeys (v : JValue) : List String :=
  match v with
  | .obj kvs => kvs.map Prod.fst
  | _ => []

/-- The immutable state built by `ConfigGenerator.__init__`: the two
directories (as rendered path strings) and the probed GPU memory in GB. -/
structure ConfigGenerator where
  work_dir : String
  comfyui_dir : String
  gpu_memory_gb : Int
deriving DecidableEq

/-! ### The GPU probe (`_get_gpu_memory`)

`int(result.stdout.strip().split('\n')[0]) // 1024`, with any
`CalledProcessError` / `FileNotFoundError` / `ValueError` replaced by the
fallback `8`. -/

/-- Whitespace for Python `str.strip()` (the ASCII whitespace classes). -/
def pyWs (c : Char) : Bool :=
  c = ' ' || c = '\t' || c = '\n' || c = '\r' || c = '\x0b' || c = '\x0c'

/-- Python `s.strip()`. -/
def pyStrip (s : String) : String :=
  ⟨(s.data.dropWhile pyWs).reverse.dropWhile pyWs |>.reverse⟩

/-- Python `s.split('\n')[0]`: the text before the first newline. -/
def firstLine (s : String) : String :=
  ⟨s.data.takeWhile (fun c => c ≠ '\n')⟩

def isDigitCh (c : Char) : Bool := '0' ≤ c && c ≤ '9'

/-- Continuation of a Python integer literal body: digits with single
underscores allowed between digits. -/
def digitsTail : List Char → Bool
  | [] => true
  | '_' :: c :: cs => isDigitCh c && digitsTail cs
  | c :: cs => isDigitCh c && digitsTail cs

/-- A full Python integer literal body: `digit ('_'? digit)*`. -/
def digitsOk : List Char → Bool
  | [] => false
  | c :: cs => isDigitCh c && digitsTail cs

/-- Base-10 value of a digit list. -/
def digitsVal (ds : List Char) : Nat :=
  ds.foldl (fun a c => a * 10 + (c.toNat - 48)) 0

/-- Python `int(s)` for base 10: optional surrounding whitespace, optional
sign, then a digit group (underscore separators allowed); `none` models the
`ValueError`. -/
def pyInt (s : String) : Option Int :=
  let body := (pyStrip s).data
  match body with
  | '+' :: ds =>
      if digitsOk ds then some ((digitsVal (ds.filter (fun c => c ≠ '_')) : Nat) : Int) else none
  | '-' :: ds =>
      if digitsOk ds then some (-((digitsVal (ds.filter (fun c => c ≠ '_')) : Nat) : Int)) else none
  | ds =>
      if digitsOk ds then some ((digitsVal (ds.filter (fun c => c ≠ '_')) : Nat) : Int) else none

/-- `ConfigGenerator._get_gpu_memory`: parse the probe's first stdout line as
MiB and floor-divide by 1024; any failure falls back to 8. -/
def get_gpu_memory (probe : Option String) : Int :=
  match probe with
  | none => 8
  | some out =>
      match pyInt (firstLine (pyStrip out)) with
      | some n => Int.fdiv n 1024
      | none => 8

/-- `ConfigGenerator.__init__`: store the two directories and probe the GPU
memory once. -/
def mkConfigGenerator (work_dir comfyui_dir : String) (probe : Option String) :
    ConfigGenerator :=
  { work_dir := work_dir, comfyui_dir := comfyui_dir,
    gpu_memory_gb := get_gpu_memory probe }

/-! ### `generate_supervisor_config` -/

def generate_supervisor_config (g : ConfigGenerator) : JValue :=
  .obj [
    ("unix_http_server", .obj [
      ("file", .str "/tmp/supervisor.sock"),
      ("chmod", .str "0700")]),
    ("supervisord", .obj [
      ("logfile", .str (g.work_dir ++ "/logs/supervisord.log")),
      ("logfile_maxbytes", .str "50MB"),
      ("logfile_backups", .int 10),
      ("loglevel", .str "info"),
      ("pidfile", .str "/tmp/supervisord.pid"),
      ("nodaemon", .bool false),
      ("minfds", .int 1024),
      ("minprocs", .int 200)]),
    ("rpcinterface:supervisor", .obj [
      ("supervisor.rpcinterface_factory",
        .str "supervisor.rpcinterface:make_main_rpcinterface")]),
    ("supervisorctl", .obj [
      ("serverurl", .str "unix:///tmp/supervisor.sock")]),
    ("program:comfyui", .obj [
      ("command", .str (g.work_dir ++ "/start_comfyui.sh")),
      ("directory", .str g.comfyui_dir),
      ("autostart", .bool true),
      ("autorestart", .bool true),
      ("stderr_logfile", .str (g.work_dir ++ "/logs/comfyui.error.log")),
      ("stdout_logfile", .str (g.work_dir ++ "/logs/comfyui.log")),
      ("environment",
        .str ("PATH=\"" ++ g.work_dir ++ "/venv/bin:/usr/local/bin:/usr/bin:/bin\""))]),
    ("program:fastapi", .obj [
      ("command", .str (g.work_dir ++ "/start_fastapi.sh")),
      ("directory", .str g.work_dir),
      ("autostart", .bool true),
      ("autorestart", .bool true),
      ("stderr_logfile", .str (g.work_dir ++ "/logs/fastapi.error.log")),
      ("stdout_logfile", .str (g.work_dir ++ "/logs/fastapi.log")),
      ("environment",
        .str ("PATH=\"" ++ g.work_dir ++ "/venv/bin:/usr/local/bin:/usr/bin:/bin\""))])]

/-! ### `generate_nginx_config`

The method formats one f-string template and returns it stripped.  The
template is a fixed sequence of lines with the chosen server name spliced
into the third line, so the embedding lists the lines of the stripped text
(`nginxLines`) and joins them with newlines, which is exactly what the
multi-line literal plus `.strip()` produces (the first and last template
lines are empty, everything between carries no newline). -/

/-- The template lines before the `server_name` line.  Here and below the
text is transcribed verbatim from the f-string (`\x7b`/`\x7d` are the
literal braces written `{{`/`}}` in the Python source). -/
def nginxPre : List String := [
  "server \x7b",
  "    listen 80;"]

/-- The template lines after the `server_name` line. -/
def nginxPost : List String := [
  "    ",
  "    # 静态文件缓存",
  "    location ~* \\.(jpg|jpeg|png|gif|ico|css|js)$ \x7b",
  "        expires 1y;",
  "        add_header Cache-Control \"public, immutable\";",
  "    \x7d",
  "    ",
  "    # FastAPI 代理",
  "    location /api/ \x7b",
  "        proxy_pass http://localhost:8000/;",
  "        proxy_set_header Host $host;",
  "        proxy_set_header X-Real-IP $remote_addr;",
  "        proxy_set_header X-Forwarded-For $proxy_add_x_forwarded_for;",
  "        proxy_set_header X-Forwarded-Proto $scheme;",
  "        ",
  "        # WebSocket 支持",
  "        proxy_http_version 1.1;",
  "        proxy_set_header Upgrade $http_upgrade;",
  "        proxy_set_header Connection \"upgrade\";",
  "        ",
  "        # 超时设置",
  "        proxy_connect_timeout 60s;",
  "        proxy_send_timeout 60s;",
  "        proxy_read_timeout 60s;",
  "    \x7d",
  "    ",
  "    # ComfyUI 代理",
  "    location /comfyui/ \x7b",
  "        proxy_pass http://localhost:8188/;",
  "        proxy_set_header Host $host;",
  "        proxy_set_header X-Real-IP $remote_addr;",
  "        proxy_set_header X-Forwarded-For $proxy_add_x_forwarded_for;",
  "        proxy_set_header X-Forwarded-Proto $scheme;",
  "        ",
  "        # WebSocket 支持",
  "        proxy_http_version 1.1;",
  "        proxy_set_header Upgrade $http_upgrade;",
  "        proxy_set_header Connection \"upgrade\";",
  "        ",
  "        # 大文件上传支持",
  "        client_max_body_size 100M;",
  "        ",
  "        # 超时设置",
  "        proxy_connect_timeout 300s;",
  "        proxy_send_timeout 300s;",
  "        proxy_read_timeout 300s;",
  "    \x7d",
  "    ",
  "    # WebSocket 直接代理",
  "    location /ws \x7b",
  "        proxy_pass http://localhost:8188/ws;",
  "        proxy_http_version 1.1;",
  "        proxy_set_header Upgrade $http_upgrade;",
  "        proxy_set_header Connection \"upgrade\";",
  "        proxy_set_header Host $host;",
  "        proxy_set_header X-Real-IP $remote_addr;",
  "        proxy_set_header X-Forwarded-For $proxy_add_x_forwarded_for;",
  "        proxy_set_header X-Forwarded-Proto $scheme;",
  "        ",
  "        # WebSocket 特定设置",
  "        proxy_buffering off;",
  "        proxy_cache off;",
  "    \x7d",
  "    ",
  "    # 默认代理到 FastAPI",
  "    location / \x7b",
  "        proxy_pass http://localhost:8000/;",
  "        proxy_set_header Host $host;",
  "        proxy_set_header X-Real-IP $remote_addr;",
  "        proxy_set_header X-Forwarded-For $proxy_add_x_forwarded_for;",
  "        proxy_set_header X-Forwarded-Proto $scheme;",
  "    \x7d",
  "\x7d"]

/-- The lines of the stripped nginx template, with `server_name` spliced
into the third line. -/
def nginxLines (server_name : String) : List String :=
  nginxPre ++ ("    server_name " ++ server_name ++ ";") :: nginxPost

/-- Python `"\n".join` (how a multi-line literal assembles from its lines). -/
def joinLines : List String → String
  | [] => ""
  | [l] => l
  | l :: ls => l ++ "\n" ++ joinLines ls

/-- `generate_nginx_config`: `domain if domain else "_"` (Python truthiness:
`None` and the empty string both fall back to the wildcard), spliced into
the stripped template. -/
def generate_nginx_config (g : ConfigGenerator) (domain : Option String) : String :=
  let server_name := match domain with
    | some d => if d = "" then "_" else d
    | none => "_"
  joinLines (nginxLines server_name)

/-- Split a character list at newlines (inverse view of `joinLines`). -/
def splitNl (cs : List Char) : List (List Char) :=
  match cs with
  | [] => [[]]
  | c :: r =>
      if c = '\n' then [] :: splitNl r
      else
        match splitNl r with
        | l :: ls => (c :: l) :: ls
        | [] => [[c]]

/-- The lines of a string, for stating per-line properties of generated text. -/
def textLines (s : String) : List String := (splitNl s.data).map fun l => ⟨l⟩

/-! ### `generate_comfyui_workflow` -/

/-- The `"basic"` workflow literal (nodes `"1"`–`"7"`). -/
def basicWorkflow : JValue :=
  .obj [
    ("1", .obj [
      ("class_type", .str "CheckpointLoaderSimple"),
      ("inputs", .obj [
        ("ckpt_name", .str "flux1-dev.safetensors")])]),
    ("2", .obj [
      ("class_type", .str "CLIPTextEncode"),
      ("inputs", .obj [
        ("text", .str "a beautiful landscape"),
        ("clip", .arr [.str "1", .int 1])])]),
    ("3", .obj [
      ("class_type", .str "EmptyLatentImage"),
      ("inputs", .obj [
        ("width", .int 1024),
        ("height", .int 1024),
        ("batch_size", .int 1)])]),
    ("4", .obj [
      ("class_type", .str "KSampler"),
      ("inputs", .obj [
        ("seed", .int 42),
        ("steps", .int 20),
        ("cfg", .dec 70 1),
        ("sampler_name", .str "euler"),
        ("scheduler", .str "normal"),
        ("denoise", .dec 10 1),
        ("model", .arr [.str "1", .int 0]),
        ("positive", .arr [.str "2", .int 0]),
        ("negative", .arr [.str "5", .int 0]),
        ("latent_image", .arr [.str "3", .int 0])])]),
    ("5", .obj [
      ("class_type", .str "CLIPTextEncode"),
      ("inputs", .obj [
        ("text", .str ""),
        ("clip", .arr [.str "1", .int 1])])]),
    ("6", .obj [
      ("class_type", .str "VAEDecode"),
      ("inputs", .obj [
        ("samples", .arr [.str "4", .int 0]),
        ("vae", .arr [.str "1", .int 2])])]),
    ("7", .obj [
      ("class_type", .str "SaveImage"),
      ("inputs", .obj [
        ("filename_prefix", .str "ComfyUI"),
        ("images", .arr [.str "6", .int 0])])])]

/-- The `workflows` catalog dict: a single `"basic"` entry. -/
def workflowCatalog : List (String × JValue) := [("basic", basicWorkflow)]

/-- `generate_comfyui_workflow`: `workflows.get(workflow_type, workflows["basic"])`. -/
def generate_comfyui_workflow (workflow_type : String) : JValue :=
  (getKey workflowCatalog workflow_type).getD basicWorkflow

/-! ### `generate_docker_compose` -/

def generate_docker_compose (g : ConfigGenerator) : JValue :=
  .obj [
    ("version", .str "3.8"),
    ("services", .obj [
      ("comfyui-service", .obj [
        ("build", .obj [
          ("context", .str "."),
          ("dockerfile", .str "Dockerfile")]),
        ("ports", .arr [.str "8000:8000", .str "8188:8188"]),
        ("volumes", .arr [
          .str (g.work_dir ++ ":/app"),
          .str "/models:/models",
          .str "./logs:/app/logs"]),
        ("environment", .arr [
          .str "PYTHONPATH=/app",
          .str "CUDA_VISIBLE_DEVICES=0"]),
        ("deploy", .obj [
          ("resources", .obj [
            ("reservations", .obj [
              ("devices", .arr [
                .obj [
                  ("driver", .str "nvidia"),
                  ("count", .int 1),
                  ("capabilities", .arr [.str "gpu"])]])])])]),
        ("restart", .str "unless-stopped")]),
      ("nginx", .obj [
        ("image", .str "nginx:alpine"),
        ("ports", .arr [.str "80:80", .str "443:443"]),
        ("volumes", .arr [
          .str "./nginx/nginx.conf:/etc/nginx/nginx.conf",
          .str "./nginx/sites-available:/etc/nginx/sites-available",
          .str "./nginx/ssl:/etc/nginx/ssl"]),
        ("depends_on", .arr [.str "comfyui-service"]),
        ("restart", .str "unless-stopped")])])]

/-! ### `optimize_for_gpu_memory` -/

def optimize_for_gpu_memory (g : ConfigGenerator) : JValue :=
  if g.gpu_memory_gb ≥ 24 then
    .obj [
      ("memory_management", .str "high_memory"),
      ("batch_size", .int 4),
      ("attention_mode", .str "flash_attention"),
      ("model_precision", .str "fp16"),
      ("cache_models", .bool true),
      ("memory_fraction", .dec 9 1)]
  else if g.gpu_memory_gb ≥ 12 then
    .obj [
      ("memory_management", .str "medium_memory"),
      ("batch_size", .int 2),
      ("attention_mode", .str "efficient_attention"),
      ("model_precision", .str "fp16"),
      ("cache_models", .bool true),
      ("memory_fraction", .dec 8 1)]
  else
    .obj [
      ("memory_management", .str "low_memory"),
      ("batch_size", .int 1),
      ("attention_mode", .str "low_mem_attention"),
      ("model_precision", .str "fp16"),
      ("cache_models", .bool false),
      ("memory_fraction", .dec 7 1),
      ("enable_sequential_cpu_offload", .bool true)]

/-! ### Serialization used by `save_config`

`json.dump(config, f, indent=2, ensure_ascii=False)` writes 2-space pretty
JSON: strings with the standard escape table (non-ASCII kept literal),
`True`/`False` as `true`/`false`, floats as their decimal form.  The INI
branch writes `[section]` headers and `key = value` lines through Python
`str`, and the text branch writes `str(config)`. -/

/-- Lowercase hexadecimal digit. -/
def hexChar (n : Nat) : Char :=
  if n < 10 then Char.ofNat (n + 48) else Char.ofNat (n + 87)

/-- One character escaped as the JSON encoder writes it (`ensure_ascii=False`:
only `"`, `\` and control characters are escaped). -/
def escChar (c : Char) : List Char :=
  if c = '"' then ['\\', '"']
  else if c = '\\' then ['\\', '\\']
  else if c = '\x08' then ['\\', 'b']
  else if c = '\t' then ['\\', 't']
  else if c = '\n' then ['\\', 'n']
  else if c = '\x0c' then ['\\', 'f']
  else if c = '\r' then ['\\', 'r']
  else if c.toNat < 32 then
    ['\\', 'u', '0', '0', hexChar (c.toNat / 16), hexChar (c.toNat % 16)]
  else [c]

/-- JSON-escape a whole character list. -/
def escBody : List Char → List Char
  | [] => []
  | c :: cs => escChar c ++ escBody cs

/-- A JSON string literal: quote, escaped body, quote. -/
def quoteStr (s : String) : List Char := '"' :: (escBody s.data ++ ['"'])

/-- Decimal digits of a natural number, most significant first. -/
def natChars (n : Nat) : List Char :=
  if n < 10 then [Char.ofNat (n + 48)]
  else natChars (n / 10) ++ [Char.ofNat (n % 10 + 48)]
termination_by n
decreasing_by exact Nat.div_lt_self (by omega) (by omega)

/-- An integer as Python prints it. -/
def intChars (i : Int) : List Char :=
  (if i < 0 then ['-'] else []) ++ natChars i.natAbs

/-- Exactly `e` decimal digits of `k` (zero-padded on the left): the
fractional digits of a float literal. -/
def padDigits : Nat → Nat → List Char
  | 0, _ => []
  | e + 1, k => padDigits e (k / 10) ++ [Char.ofNat (k % 10 + 48)]

/-- The decimal form of the float literal `m / 10 ^ e` with `e` fractional
digits, as Python `repr` prints the literals appearing in the source
(`0.7`, `0.8`, `0.9`, `1.0`, `7.0`). -/
def decChars (m : Int) (e : Nat) : List Char :=
  (if m < 0 then ['-'] else []) ++
    natChars (m.natAbs / 10 ^ e) ++ '.' :: padDigits e (m.natAbs % 10 ^ e)

/-- `n` spaces: the indentation prefix `json.dump(indent=2)` emits. -/
def pad (n : Nat) : List Char := List.replicate n ' '

mutual

/-- `json.dump(·, indent=2, ensure_ascii=False)` at current indent `ind`. -/
def dumpVal (ind : Nat) : JValue → List Char
  | .str s => quoteStr s
  | .int n => intChars n
  | .dec m e => decChars m e
  | .bool true => ['t', 'r', 'u', 'e']
  | .bool false => ['f', 'a', 'l', 's', 'e']
  | .arr [] => ['[', ']']
  | .arr (x :: xs) =>
      '[' :: '\n' :: (pad (ind + 2) ++ dumpVal (ind + 2) x ++
        (dumpArrTail (ind + 2) xs ++ '\n' :: (pad ind ++ [']'])))
  | .obj [] => ['\x7b', '\x7d']
  | .obj ((k, v) :: kvs) =>
      '\x7b' :: '\n' :: (pad (ind + 2) ++ quoteStr k ++ ':' :: ' ' :: (dumpVal (ind + 2) v ++
        (dumpObjTail (ind + 2) kvs ++ '\n' :: (pad ind ++ ['\x7d']))))

/-- Second and later array elements: `,` newline, indent, element. -/
def dumpArrTail (ind : Nat) : List JValue → List Char
  | [] => []
  | x :: xs => ',' :: '\n' :: (pad ind ++ dumpVal ind x ++ dumpArrTail ind xs)

/-- Second and later object members: `,` newline, indent, key, `: `, value. -/
def dumpObjTail (ind : Nat) : List (String × JValue) → List Char
  | [] => []
  | (k, v) :: kvs =>
      ',' :: '\n' :: (pad ind ++ quoteStr k ++ ':' :: ' ' :: (dumpVal ind v ++ dumpObjTail ind kvs))

end

/-- The exact text `save_config` writes in `"json"` mode. -/
def jsonDump (v : JValue) : String := ⟨dumpVal 0 v⟩

/-- One character under Python `repr` of a string quoted with `q` (ASCII
range; `repr` additionally escapes non-printable non-ASCII codepoints,
which no generated document contains). -/
def reprEscChar (q c : Char) : List Char :=
  if c = '\\' then ['\\', '\\']
  else if c = q then ['\\', q]
  else if c = '\n' then ['\\', 'n']
  else if c = '\r' then ['\\', 'r']
  else if c = '\t' then ['\\', 't']
  else if c.toNat < 32 || c.toNat = 127 then
    ['\\', 'x', hexChar (c.toNat / 16), hexChar (c.toNat % 16)]
  else [c]

def reprEscBody (q : Char) : List Char → List Char
  | [] => []
  | c :: cs => reprEscChar q c ++ reprEscBody q cs

/-- Python `repr` of a string: single-quoted, except double-quoted when the
text contains a single quote but no double quote. -/
def pyStrRepr (s : String) : List Char :=
  let q : Char :=
    if s.data.contains (Char.ofNat 39) && !(s.data.contains '"') then '"' else Char.ofNat 39
  q :: (reprEscBody q s.data ++ [q])

mutual

/-- Python `repr` of a document value. -/
def pyRepr : JValue → List Char
  | .str s => pyStrRepr s
  | .int n => intChars n
  | .dec m e => decChars m e
  | .bool true => ['T', 'r', 'u', 'e']
  | .bool false => ['F', 'a', 'l', 's', 'e']
  | .arr [] => ['[', ']']
  | .arr (x :: xs) => '[' :: (pyRepr x ++ (pyReprArrTail xs ++ [']']))
  | .obj [] => ['\x7b', '\x7d']
  | .obj ((k, v) :: kvs) =>
      '\x7b' :: (pyStrRepr k ++ ':' :: ' ' :: (pyRepr v ++ (pyReprObjTail kvs ++ ['\x7d'])))

def pyReprArrTail : List JValue → List Char
  | [] => []
  | x :: xs => ',' :: ' ' :: (pyRepr x ++ pyReprArrTail xs)

def pyReprObjTail : List (String × JValue) → List Char
  | [] => []
  | (k, v) :: kvs => ',' :: ' ' :: (pyStrRepr k ++ ':' :: ' ' :: (pyRepr v ++ pyReprObjTail kvs))

end

/-- Python `str` of a document value (a string is itself; anything else is
its `repr`). -/
def pyStr (v : JValue) : List Char :=
  match v with
  | .str s => s.data
  | v => pyRepr v

/-- One `[section]` body in `"ini"` mode: `key = str(value)` lines. -/
def iniKVs : List (String × JValue) → List Char
  | [] => []
  | (k, v) :: rest => k.data ++ ' ' :: '=' :: ' ' :: (pyStr v ++ '\n' :: iniKVs rest)

/-- The whole `"ini"` output: per section a header line, the key/value lines
when the section's value is a dict, then a blank line. -/
def iniDump : List (String × JValue) → List Char
  | [] => []
  | (sec, vals) :: rest =>
      '[' :: (sec.data ++ ']' :: '\n' ::
        ((match vals with
          | .obj kvs => iniKVs kvs
          | _ => []) ++ '\n' :: iniDump rest))

/-! ### The filesystem model and `save_config`

`save_config` opens `work_dir / filename` for writing inside one
`try/except Exception` block and returns a boolean.  The filesystem enters
the embedding as a `FileSys`: the stored files plus which paths can be
opened for writing.  `open(path, 'w')` truncates/creates the file when the
path is writable and raises otherwise (the failure the spec's error-handling
claims exercise — e.g. a missing directory or a directory without write
permission makes `open` fail before anything is written). -/

structure FileSys where
  writable : String → Bool
  files : List (String × String)

/-- Store `content` at `path` (overwrite or append-new). -/
def setFile : List (String × String) → String → String → List (String × String)
  | [], p, c => [(p, c)]
  | (q, d) :: rest, p, c =>
      if q = p then (p, c) :: rest else (q, d) :: setFile rest p c

/-- Content at `path`, if the file exists. -/
def getFile : List (String × String) → String → Option String
  | [], _ => none
  | (q, d) :: rest, p => if q = p then some d else getFile rest p

/-- `open(path, 'w')`: truncate/create on success, raise on failure. -/
def openWrite (fs : FileSys) (path : String) : Except String FileSys :=
  if fs.writable path then .ok { fs with files := setFile fs.files path "" }
  else .error ("[Errno 13] Permission denied: " ++ path)

/-- The writes performed on a file `open` already truncated. -/
def putContent (fs : FileSys) (path content : String) : FileSys :=
  { fs with files := setFile fs.files path content }

/-- `pathlib`'s `/`: an absolute right operand replaces the left one. -/
def joinPath (dir filename : String) : String :=
  if filename = "" then dir
  else if filename.data.head? = some '/' then filename
  else dir ++ "/" ++ filename

/-- One record emitted through `logger`. -/
inductive LogMsg where
  | info (msg : String)
  | warning (msg : String)
  | error (msg : String)
deriving DecidableEq

/-- What a `save_config` call produces: the filesystem afterwards, the log
records of the call, and the returned boolean. -/
structure SaveResult where
  fs : FileSys
  log : List LogMsg
  ok : Bool

/-- `ConfigGenerator.save_config`.  The whole body sits in
`try/except Exception`, so no exception escapes: every path ends in the
`True` return with an info log or the `False` return with an error log.
In `"ini"` mode `config.items()` on a non-dict raises `AttributeError`
after `open` has already truncated the file, so that failure leaves the
empty file behind.  An unrecognized `format_type` matches no branch: the
body falls through to the success return without touching the disk. -/
def save_config (fs : FileSys) (g : ConfigGenerator) (config : JValue)
    (filename : String) (format_type : String) : SaveResult :=
  let filepath := joinPath g.work_dir filename
  if format_type = "json" then
    match openWrite fs filepath with
    | .error e => ⟨fs, [.error ("保存配置失败: " ++ e)], false⟩
    | .ok fs1 =>
        ⟨putContent fs1 filepath (jsonDump config),
          [.info ("配置已保存: " ++ filepath)], true⟩
  else if format_type = "ini" then
    match openWrite fs filepath with
    | .error e => ⟨fs, [.error ("保存配置失败: " ++ e)], false⟩
    | .ok fs1 =>
        match config with
        | .obj kvs =>
            ⟨putContent fs1 filepath ⟨iniDump kvs⟩,
              [.info ("配置已保存: " ++ filepath)], true⟩
        | _ =>
            ⟨fs1, [.error ("保存配置失败: 'str' object has no attribute 'items'")], false⟩
  else if format_type = "text" then
    match openWrite fs filepath with
    | .error e => ⟨fs, [.error ("保存配置失败: " ++ e)], false⟩
    | .ok fs1 =>
        ⟨putContent fs1 filepath ⟨pyStr config⟩,
          [.info ("配置已保存: " ++ filepath)], true⟩
  else ⟨fs, [.info ("配置已保存: " ++ filepath)], true⟩

/-! ### A JSON parser

The round-trip claim compares a generated document with the result of
parsing its serialized text, so the embedding carries a standard JSON
reader: recursive descent over the character list, whitespace-insensitive,
with the string escape table and plain / fractional decimal numbers (the
serializer above never emits an exponent form). -/

/-- JSON insignificant whitespace. -/
def jsonWs (c : Char) : Bool := c = ' ' || c = '\t' || c = '\n' || c = '\r'

/-- Skip insignificant whitespace. -/
def dropWs : List Char → List Char
  | [] => []
  | c :: cs => if jsonWs c then dropWs cs else c :: cs

/-- Value of one hexadecimal digit. -/
def hexVal (c : Char) : Option Nat :=
  if 48 ≤ c.toNat ∧ c.toNat ≤ 57 then some (c.toNat - 48)
  else if 97 ≤ c.toNat ∧ c.toNat ≤ 102 then some (c.toNat - 87)
  else if 65 ≤ c.toNat ∧ c.toNat ≤ 70 then some (c.toNat - 55)
  else none

/-- The character a short escape stands for. -/
def escDecode (c : Char) : Option Char :=
  if c = '"' then some '"'
  else if c = '\\' then some '\\'
  else if c = '/' then some '/'
  else if c = 'b' then some '\x08'
  else if c = 'f' then some '\x0c'
  else if c = 'n' then some '\n'
  else if c = 'r' then some '\r'
  else if c = 't' then some '\t'
  else none

/-- Read a string body up to the closing quote, undoing escapes. -/
def pStrBody : List Char → Option (List Char × List Char)
  | [] => none
  | '"' :: rest => some ([], rest)
  | '\\' :: 'u' :: a :: b :: c :: d :: rest =>
      match hexVal a, hexVal b, hexVal c, hexVal d with
      | some va, some vb, some vc, some vd =>
          match pStrBody rest with
          | some (s, r) => some (Char.ofNat (((va * 16 + vb) * 16 + vc) * 16 + vd) :: s, r)
          | none => none
      | _, _, _, _ => none
  | '\\' :: e :: rest =>
      match escDecode e with
      | some ch =>
          match pStrBody rest with
          | some (s, r) => some (ch :: s, r)
          | none => none
      | none => none
  | c :: rest =>
      match pStrBody rest with
      | some (s, r) => some (c :: s, r)
      | none => none

/-- Longest digit run at the front. -/
def grabDigits : List Char → List Char × List Char
  | [] => ([], [])
  | c :: cs =>
      if isDigitCh c then
        let (ds, r) := grabDigits cs
        (c :: ds, r)
      else ([], c :: cs)

/-- Read a number body after the sign: digits, then an optional fraction.
A fractional form becomes `dec`, an integral form `int`. -/
def pNumCore (neg : Bool) (cs1 : List Char) : Option (JValue × List Char) :=
  match grabDigits cs1 with
  | ([], _) => none
  | (ds, cs2) =>
      if cs2.head? = some '.' then
        match grabDigits cs2.tail with
        | ([], _) => none
        | (fs, cs4) =>
            let a : Nat := digitsVal ds * 10 ^ fs.length + digitsVal fs
            some (.dec (if neg then -(a : Int) else (a : Int)) fs.length, cs4)
      else some (.int (if neg then -(digitsVal ds : Int) else (digitsVal ds : Int)), cs2)

/-- Read a number: optional minus sign, then the body. -/
def pNum (cs : List Char) : Option (JValue × List Char) :=
  match cs with
  | '-' :: r => pNumCore true r
  | r => pNumCore false r

/-- Wrap a string body as a string value. -/
def pStrTok (r : List Char) : Option (JValue × List Char) :=
  match pStrBody r with
  | some (body, r1) => some (.str ⟨body⟩, r1)
  | none => none

/-- The tail of the keyword `true` (its `t` is already consumed). -/
def pTrueTok (r : List Char) : Option (JValue × List Char) :=
  match r with
  | 'r' :: 'u' :: 'e' :: r1 => some (.bool true, r1)
  | _ => none

/-- The tail of the keyword `false`. -/
def pFalseTok (r : List Char) : Option (JValue × List Char) :=
  match r with
  | 'a' :: 'l' :: 's' :: 'e' :: r1 => some (.bool false, r1)
  | _ => none

/-- Cons a parsed element onto a parsed array tail. -/
def consWrap (v : JValue) (o : Option (List JValue × List Char)) :
    Option (List JValue × List Char) :=
  match o with
  | some (vs, r2) => some (v :: vs, r2)
  | none => none

/-- Turn a parsed element list into an array value. -/
def pArrWrap (v : JValue) (o : Option (List JValue × List Char)) :
    Option (JValue × List Char) :=
  match o with
  | some (vs, r3) => some (.arr (v :: vs), r3)
  | none => none

/-- Turn a parsed member list into an object value. -/
def objWrap (o : Option (List (String × JValue) × List Char)) :
    Option (JValue × List Char) :=
  match o with
  | some (ms, r5) => some (.obj ms, r5)
  | none => none

/-- Cons a parsed member onto a parsed member tail. -/
def memberWrap (key : List Char) (v : JValue)
    (o : Option (List (String × JValue) × List Char)) :
    Option (List (String × JValue) × List Char) :=
  match o with
  | some (ms, r5) => some ((⟨key⟩, v) :: ms, r5)
  | none => none

mutual

/-- Read one value (fuel-bounded recursive descent): skip whitespace, then
dispatch on the head character. -/
def pVal : Nat → List Char → Option (JValue × List Char)
  | 0, _ => none
  | fuel + 1, cs =>
      match dropWs cs with
      | [] => none
      | c :: r => pValCore fuel c r
termination_by fuel _ => 16 * fuel
decreasing_by all_goals omega

/-- Head dispatch for one value (`c` is the first significant character,
`r` what follows it). -/
def pValCore (fuel : Nat) (c : Char) (r : List Char) : Option (JValue × List Char) :=
  if c = '"' then pStrTok r
  else if c = 't' then pTrueTok r
  else if c = 'f' then pFalseTok r
  else if c = '[' then pArrOpen fuel (dropWs r)
  else if c = '\x7b' then pObjOpen fuel (dropWs r)
  else if c = '-' || isDigitCh c then pNum (c :: r)
  else none
termination_by 16 * fuel + 9
decreasing_by all_goals omega

/-- After `[`: empty array or first element. -/
def pArrOpen (fuel : Nat) : List Char → Option (JValue × List Char)
  | [] => none
  | c1 :: r1 => pArrFirst fuel c1 r1
termination_by _ => 16 * fuel + 8
decreasing_by all_goals omega

/-- Immediate `]`, or the first element then the element loop. -/
def pArrFirst (fuel : Nat) (c1 : Char) (r1 : List Char) : Option (JValue × List Char) :=
  if c1 = ']' then some (.arr [], r1)
  else pArrCont fuel (pVal fuel (c1 :: r1))
termination_by 16 * fuel + 7
decreasing_by all_goals omega

/-- Continue an array after its first element parsed. -/
def pArrCont (fuel : Nat) (o : Option (JValue × List Char)) :
    Option (JValue × List Char) :=
  match o with
  | some (v, r2) => pArrWrap v (pArrTail fuel r2)
  | none => none
termination_by 16 * fuel + 6
decreasing_by all_goals omega

/-- After `\x7b`: empty object or first member. -/
def pObjOpen (fuel : Nat) : List Char → Option (JValue × List Char)
  | [] => none
  | c1 :: r1 => pObjFirst fuel c1 r1
termination_by _ => 16 * fuel + 8
decreasing_by all_goals omega

/-- Immediate `\x7d`, or a quoted key starting the first member. -/
def pObjFirst (fuel : Nat) (c1 : Char) (r1 : List Char) : Option (JValue × List Char) :=
  if c1 = '\x7d' then some (.obj [], r1)
  else if c1 = '"' then objWrap (pMember fuel r1)
  else none
termination_by 16 * fuel + 7
decreasing_by all_goals omega

/-- One `key: value` member (the opening quote already consumed) followed by
the member loop. -/
def pMember (fuel : Nat) (r1 : List Char) :
    Option (List (String × JValue) × List Char) :=
  match pStrBody r1 with
  | some (key, r2) => pMemberRest fuel key (dropWs r2)
  | none => none
termination_by 16 * fuel + 6
decreasing_by all_goals omega

/-- After a member's key: the text must continue with `:`. -/
def pMemberRest (fuel : Nat) (key : List Char) :
    List Char → Option (List (String × JValue) × List Char)
  | [] => none
  | c2 :: r3 => pMemberColon fuel key c2 r3
termination_by _ => 16 * fuel + 5
decreasing_by all_goals omega

/-- Check the `:` and read the member's value. -/
def pMemberColon (fuel : Nat) (key : List Char) (c2 : Char) (r3 : List Char) :
    Option (List (String × JValue) × List Char) :=
  if c2 = ':' then pMemberVal fuel key (pVal fuel r3)
  else none
termination_by 16 * fuel + 4
decreasing_by all_goals omega

/-- Continue an object after one member's value parsed. -/
def pMemberVal (fuel : Nat) (key : List Char) (o : Option (JValue × List Char)) :
    Option (List (String × JValue) × List Char) :=
  match o with
  | some (v, r4) => memberWrap key v (pObjTail fuel r4)
  | none => none
termination_by 16 * fuel + 3
decreasing_by all_goals omega

/-- Read the rest of an array after its first element: `, value`s then `]`. -/
def pArrTail : Nat → List Char → Option (List JValue × List Char)
  | 0, _ => none
  | fuel + 1, cs =>
      match dropWs cs with
      | [] => none
      | c :: r => pArrTailCore fuel c r
termination_by fuel _ => 16 * fuel
decreasing_by all_goals omega

/-- Head dispatch for an array continuation. -/
def pArrTailCore (fuel : Nat) (c : Char) (r : List Char) :
    Option (List JValue × List Char) :=
  if c = ',' then pArrStep fuel (pVal fuel r)
  else if c = ']' then some ([], r)
  else none
termination_by 16 * fuel + 9
decreasing_by all_goals omega

/-- Continue the element loop after one more element parsed. -/
def pArrStep (fuel : Nat) (o : Option (JValue × List Char)) :
    Option (List JValue × List Char) :=
  match o with
  | some (v, r1) => consWrap v (pArrTail fuel r1)
  | none => none
termination_by 16 * fuel + 8
decreasing_by all_goals omega

/-- Read the rest of an object after its first member. -/
def pObjTail : Nat → List Char → Option (List (String × JValue) × List Char)
  | 0, _ => none
  | fuel + 1, cs =>
      match dropWs cs with
      | [] => none
      | c :: r => pObjTailCore fuel c r
termination_by fuel _ => 16 * fuel
decreasing_by all_goals omega

/-- Head dispatch for an object continuation. -/
def pObjTailCore (fuel : Nat) (c : Char) (r : List Char) :
    Option (List (String × JValue) × List Char) :=
  if c = ',' then pObjStep fuel (dropWs r)
  else if c = '\x7d' then some ([], r)
  else none
termination_by 16 * fuel + 9
decreasing_by all_goals omega

/-- After the member loop's comma: the next member's opening quote. -/
def pObjStep (fuel : Nat) : List Char → Option (List (String × JValue) × List Char)
  | [] => none
  | c1 :: r1 => if c1 = '"' then pMember fuel r1 else none
termination_by _ => 16 * fuel + 8
decreasing_by all_goals omega

end

/-- Parse a complete document: one value, then only whitespace. -/
def parseJson (s : String) : Option JValue :=
  match pVal (s.data.length + 1) s.data with
  | some (v, rest) => if dropWs rest = [] then some v else none
  | none => none

mutual

/-- Serializable-form documents: every float literal carries at least one
fractional digit (Python float `repr` always prints one). -/
def wfVal : JValue → Bool
  | .str _ => true
  | .int _ => true
  | .dec _ e => decide (1 ≤ e)
  | .bool _ => true
  | .arr xs => wfList xs
  | .obj kvs => wfKVs kvs

def wfList : List JValue → Bool
  | [] => true
  | x :: xs => wfVal x && wfList xs

def wfKVs : List (String × JValue) → Bool
  | [] => true
  | (_, v) :: kvs => wfVal v && wfKVs kvs

end

/-- Whether a number just read cannot be extended by what follows: nothing,
or a character that is neither a digit nor a decimal point. -/
def numStop (cs : List Char) : Bool :=
  match cs with
  | [] => true
  | c :: _ => !(isDigitCh c || c = '.')

/-! ## Helper notions for the claim statements -/

/-- Follow a key path through nested documents. -/
def jpath (v : JValue) : List String → Option JValue
  | [] => some v
  | k :: ks =>
      match jget v k with
      | some w => jpath w ks
      | none => none

/-- `p` is a prefix of `k` (character-wise). -/
def hasPre (p k : String) : Bool := p.data.isPrefixOf k.data

/-- The server name the nginx generator chooses for a `--domain` argument. -/
def serverNameOf : Option String → String
  | none => "_"
  | some d => d

/-- A well-formed `--domain` argument: absent, or a nonempty single-line
string (a domain name). -/
def domOk : Option String → Prop
  | none => True
  | some d => d ≠ "" ∧ '\n' ∉ d.data

/-- What `save_config` writes for each recognized format (for `"ini"` the
document is a dict whenever the call succeeds). -/
def serializedText (fmt : String) (config : JValue) : String :=
  if fmt = "json" then jsonDump config
  else if fmt = "ini" then
    ⟨iniDump (match config with | .obj kvs => kvs | _ => [])⟩
  else ⟨pyStr config⟩

/-! ## Structural equality of documents -/

mutual

theorem jeq_iff : ∀ a b : JValue, jeq a b = true ↔ a = b
  | .str _, .str _ => by simp [jeq]
  | .str _, .int _ => by simp [jeq]
  | .str _, .dec _ _ => by simp [jeq]
  | .str _, .bool _ => by simp [jeq]
  | .str _, .arr _ => by simp [jeq]
  | .str _, .obj _ => by simp [jeq]
  | .int _, .str _ => by simp [jeq]
  | .int _, .int _ => by simp [jeq]
  | .int _, .dec _ _ => by simp [jeq]
  | .int _, .bool _ => by simp [jeq]
  | .int _, .arr _ => by simp [jeq]
  | .int _, .obj _ => by simp [jeq]
  | .dec _ _, .str _ => by simp [jeq]
  | .dec _ _, .int _ => by simp [jeq]
  | .dec _ _, .dec _ _ => by simp [jeq]
  | .dec _ _, .bool _ => by simp [jeq]
  | .dec _ _, .arr _ => by simp [jeq]
  | .dec _ _, .obj _ => by simp [jeq]
  | .bool _, .str _ => by simp [jeq]
  | .bool _, .int _ => by simp [jeq]
  | .bool _, .dec _ _ => by simp [jeq]
  | .bool _, .bool _ => by simp [jeq]
  | .bool _, .arr _ => by simp [jeq]
  | .bool _, .obj _ => by simp [jeq]
  | .arr _, .str _ => by simp [jeq]
  | .arr _, .int _ => by simp [jeq]
  | .arr _, .dec _ _ => by simp [jeq]
  | .arr _, .bool _ => by simp [jeq]
  | .arr xs, .arr ys => by simp [jeq, jeqList_iff xs ys]
  | .arr _, .obj _ => by simp [jeq]
  | .obj _, .str _ => by simp [jeq]
  | .obj _, .int _ => by simp [jeq]
  | .obj _, .dec _ _ => by simp [jeq]
  | .obj _, .bool _ => by simp [jeq]
  | .obj _, .arr _ => by simp [jeq]
  | .obj xs, .obj ys => by simp [jeq, jeqKVs_iff xs ys]

theorem jeqList_iff : ∀ xs ys : List JValue, jeqList xs ys = true ↔ xs = ys
  | [], [] => by simp [jeqList]
  | [], _ :: _ => by simp [jeqList]
  | _ :: _, [] => by simp [jeqList]
  | x :: xs, y :: ys => by
      simp [jeqList, jeq_iff x y, jeqList_iff xs ys]

theorem jeqKVs_iff : ∀ xs ys : List (String × JValue), jeqKVs xs ys = true ↔ xs = ys
  | [], [] => by simp [jeqKVs]
  | [], _ :: _ => by simp [jeqKVs]
  | _ :: _, [] => by simp [jeqKVs]
  | (k, v) :: xs, (l, w) :: ys => by
      simp only [jeqKVs, Bool.and_eq_true, decide_eq_true_eq, jeq_iff v w, jeqKVs_iff xs ys,
        List.cons.injEq, Prod.mk.injEq, and_assoc]

end

instance : DecidableEq JValue := fun a b => decidable_of_iff _ (jeq_iff a b)

/-! ## Round-trip development: whitespace and character classes -/


lemma dropWs_cons_not {c : Char} (h : jsonWs c = false) (cs : List Char) :
    dropWs (c :: cs) = c :: cs := by
  simp [dropWs, h]

lemma dropWs_cons_ws {c : Char} (h : jsonWs c = true) (cs : List Char) :
    dropWs (c :: cs) = dropWs cs := by
  simp [dropWs, h]

lemma dropWs_pad (n : Nat) (cs : List Char) : dropWs (pad n ++ cs) = dropWs cs := by
  induction n with
  | zero => rfl
  | succ k ih =>
      show dropWs (' ' :: (pad k ++ cs)) = dropWs cs
      rw [dropWs_cons_ws (by decide), ih]

lemma dropWs_idem (cs : List Char) : dropWs (dropWs cs) = dropWs cs := by
  induction cs with
  | nil => rfl
  | cons c r ih =>
      by_cases h : jsonWs c = true
      · rw [dropWs_cons_ws h, ih]
      · rw [dropWs_cons_not (by simpa using h), dropWs_cons_not (by simpa using h)]

/-- All the dispatch facts about a decimal digit character the parser's
branch analysis needs. -/
lemma digit_props {c : Char} (h : isDigitCh c = true) :
    jsonWs c = false ∧ c ≠ '-' ∧ c ≠ '.' ∧ c ≠ '"' ∧ c ≠ 't' ∧ c ≠ 'f' ∧
      c ≠ '[' ∧ c ≠ '\x7b' ∧ c ≠ ']' ∧ c ≠ '\x7d' ∧ c ≠ ',' := by
  have hc : 48 ≤ c.toNat ∧ c.toNat ≤ 57 := by
    simpa [isDigitCh, Char.le_def, Char.toNat] using h
  refine ⟨?_, ?_, ?_, ?_, ?_, ?_, ?_, ?_, ?_, ?_, ?_⟩
  · simp only [jsonWs, Bool.or_eq_false_iff, decide_eq_false_iff_not]
    refine ⟨⟨⟨fun e => ?_, fun e => ?_⟩, fun e => ?_⟩, fun e => ?_⟩ <;>
      (subst e; revert hc; decide)
  all_goals intro e; subst e; revert hc; decide

lemma numStop_cons {c : Char} (h : (isDigitCh c || c = '.') = false) (cs : List Char) :
    numStop (c :: cs) = true := by
  simp only [numStop, h, Bool.not_false]

/-! ## Round-trip development: digits and numbers -/

lemma digitsVal_snoc (ds : List Char) (c : Char) :
    digitsVal (ds ++ [c]) = digitsVal ds * 10 + (c.toNat - 48) := by
  simp [digitsVal, List.foldl_append]

lemma digit_char_props (d : Nat) (h : d < 10) :
    isDigitCh (Char.ofNat (d + 48)) = true ∧ (Char.ofNat (d + 48)).toNat = d + 48 := by
  interval_cases d <;> exact ⟨by decide, by decide⟩

lemma natChars_unfold (n : Nat) :
    natChars n = if n < 10 then [Char.ofNat (n + 48)]
      else natChars (n / 10) ++ [Char.ofNat (n % 10 + 48)] := by
  rw [natChars]

lemma natChars_digits (n : Nat) : ∀ c ∈ natChars n, isDigitCh c = true := by
  induction n using Nat.strongRecOn with
  | _ n ih =>
      intro c hc
      rw [natChars_unfold] at hc
      by_cases h : n < 10
      · rw [if_pos h] at hc
        rw [List.mem_singleton] at hc
        subst hc
        exact (digit_char_props n h).1
      · rw [if_neg h] at hc
        rcases List.mem_append.mp hc with h1 | h2
        · exact ih (n / 10) (Nat.div_lt_self (by omega) (by omega)) c h1
        · rw [List.mem_singleton] at h2
          subst h2
          exact (digit_char_props (n % 10) (Nat.mod_lt _ (by omega))).1

lemma natChars_head (n : Nat) :
    ∃ c t, natChars n = c :: t ∧ isDigitCh c = true := by
  rw [natChars_unfold]
  by_cases h : n < 10
  · rw [if_pos h]
    exact ⟨_, _, rfl, (digit_char_props n h).1⟩
  · rw [if_neg h]
    obtain ⟨c, t, hct, hc⟩ := natChars_head (n / 10)
    exact ⟨c, t ++ [Char.ofNat (n % 10 + 48)], by rw [hct]; rfl, hc⟩
termination_by n
decreasing_by exact Nat.div_lt_self (by omega) (by omega)

lemma digitsVal_natChars (n : Nat) : digitsVal (natChars n) = n := by
  induction n using Nat.strongRecOn with
  | _ n ih =>
      rw [natChars_unfold]
      by_cases h : n < 10
      · rw [if_pos h]
        show digitsVal ([] ++ [_]) = n
        rw [digitsVal_snoc, (digit_char_props n h).2]
        simp [digitsVal]
      · rw [if_neg h, digitsVal_snoc, ih (n / 10) (Nat.div_lt_self (by omega) (by omega)),
          (digit_char_props (n % 10) (Nat.mod_lt _ (by omega))).2]
        omega

lemma padDigits_digits (e k : Nat) : ∀ c ∈ padDigits e k, isDigitCh c = true := by
  induction e generalizing k with
  | zero => intro c hc; simp [padDigits] at hc
  | succ e ih =>
      intro c hc
      rw [padDigits] at hc
      rcases List.mem_append.mp hc with h1 | h2
      · exact ih (k / 10) c h1
      · rw [List.mem_singleton] at h2
        subst h2
        exact (digit_char_props (k % 10) (Nat.mod_lt _ (by omega))).1

lemma padDigits_length (e k : Nat) : (padDigits e k).length = e := by
  induction e generalizing k with
  | zero => rfl
  | succ e ih => simp [padDigits, ih]

lemma digitsVal_padDigits (e k : Nat) (h : k < 10 ^ e) :
    digitsVal (padDigits e k) = k := by
  induction e generalizing k with
  | zero => simp [pow_zero] at h; simp [padDigits, digitsVal, h]
  | succ e ih =>
      rw [padDigits, digitsVal_snoc, ih (k / 10) (by rw [pow_succ] at h; omega),
        (digit_char_props (k % 10) (Nat.mod_lt _ (by omega))).2]
      omega

lemma grabDigits_stop {cs : List Char} (h : numStop cs = true) :
    grabDigits cs = ([], cs) := by
  match cs with
  | [] => rfl
  | c :: t =>
      simp only [numStop, Bool.not_eq_true', Bool.or_eq_false_iff] at h
      simp [grabDigits, h.1]

lemma grabDigits_nodigit {c : Char} (h : isDigitCh c = false) (t : List Char) :
    grabDigits (c :: t) = ([], c :: t) := by
  simp [grabDigits, h]

lemma grabDigits_run (ds : List Char) (hds : ∀ c ∈ ds, isDigitCh c = true)
    (rest : List Char) (hrest : grabDigits rest = ([], rest)) :
    grabDigits (ds ++ rest) = (ds, rest) := by
  induction ds with
  | nil => simpa using hrest
  | cons c t ih =>
      have hc : isDigitCh c = true := hds c (by simp)
      have ht := ih (fun x hx => hds x (by simp [hx]))
      simp [grabDigits, hc, ht]

lemma pNum_not_neg {c : Char} (t : List Char) (h : c ≠ '-') :
    pNum (c :: t) = pNumCore false (c :: t) := by
  rw [pNum.eq_def]
  split
  · rename_i r heq
    rw [List.cons.injEq] at heq
    exact absurd heq.1 h
  · rfl

lemma pNum_neg_head (r : List Char) : pNum ('-' :: r) = pNumCore true r := rfl

/-- Reading back a rendered integer, whenever nothing following could extend
the number. -/
lemma pNum_int (n : Int) (rest : List Char) (h : numStop rest = true) :
    pNum (intChars n ++ rest) = some (.int n, rest) := by
  obtain ⟨c, t, hct, hc⟩ := natChars_head n.natAbs
  have hgrab : grabDigits (c :: (t ++ rest)) = (c :: t, rest) := by
    have := grabDigits_run (c :: t) (by rw [← hct]; exact natChars_digits n.natAbs)
      rest (grabDigits_stop h)
    simpa using this
  have hdot : ¬ rest.head? = some '.' := by
    match rest, h with
    | [], _ => simp
    | c0 :: t0, h =>
        simp only [numStop, Bool.not_eq_true', Bool.or_eq_false_iff,
          decide_eq_false_iff_not] at h
        simpa using h.2
  have hval : digitsVal (c :: t) = n.natAbs := by
    rw [← hct, digitsVal_natChars]
  have hbody : ∀ neg : Bool, pNumCore neg (c :: (t ++ rest))
      = some (.int (if neg then -(n.natAbs : Int) else (n.natAbs : Int)), rest) := by
    intro neg
    simp only [pNumCore, hgrab, if_neg hdot, hval]
  by_cases hneg : n < 0
  · rw [intChars, if_pos hneg]
    show pNum ('-' :: (natChars n.natAbs ++ rest)) = _
    rw [hct, show (c :: t) ++ rest = c :: (t ++ rest) from rfl, pNum_neg_head, hbody true]
    simp [abs_of_neg hneg]
  · rw [intChars, if_neg hneg, List.nil_append, hct,
      show (c :: t) ++ rest = c :: (t ++ rest) from rfl,
      pNum_not_neg _ (digit_props hc).2.1, hbody false]
    simp [show (n.natAbs : Int) = n from by omega]

/-- Reading back a rendered float literal with `e ≥ 1` fractional digits. -/
lemma pNum_dec (m : Int) (e : Nat) (he : 1 ≤ e) (rest : List Char)
    (h : numStop rest = true) :
    pNum (decChars m e ++ rest) = some (.dec m e, rest) := by
  obtain ⟨c, t, hct, hc⟩ := natChars_head (m.natAbs / 10 ^ e)
  obtain ⟨p, ps, hpd⟩ : ∃ p ps, padDigits e (m.natAbs % 10 ^ e) = p :: ps := by
    match hx : padDigits e (m.natAbs % 10 ^ e) with
    | [] =>
        have hlen0 := padDigits_length e (m.natAbs % 10 ^ e)
        rw [hx] at hlen0
        simp at hlen0
        omega
    | p :: ps => exact ⟨p, ps, rfl⟩
  have hfrac : grabDigits ((p :: ps) ++ rest) = (p :: ps, rest) :=
    grabDigits_run (p :: ps) (by rw [← hpd]; exact padDigits_digits e _)
      rest (grabDigits_stop h)
  have hgrab : grabDigits (c :: (t ++ ('.' :: (p :: ps ++ rest))))
      = (c :: t, '.' :: (p :: ps ++ rest)) := by
    have := grabDigits_run (c :: t) (by rw [← hct]; exact natChars_digits _)
      ('.' :: (p :: ps ++ rest)) (grabDigits_nodigit (by decide) _)
    simpa using this
  have hlen : (p :: ps).length = e := by
    rw [← hpd]; exact padDigits_length e _
  have hval : digitsVal (c :: t) * 10 ^ e + digitsVal (p :: ps) = m.natAbs := by
    rw [← hct, ← hpd, digitsVal_natChars,
      digitsVal_padDigits e _ (Nat.mod_lt _ (pow_pos (by omega) e))]
    rw [Nat.mul_comm]
    exact Nat.div_add_mod _ _
  have hbody : ∀ neg : Bool, pNumCore neg (c :: (t ++ ('.' :: (p :: ps ++ rest))))
      = some (.dec (if neg then -(m.natAbs : Int) else (m.natAbs : Int)) e, rest) := by
    intro neg
    simp only [pNumCore, hgrab, List.head?_cons, List.tail_cons, hlen, hfrac, hval,
      if_pos rfl, if_true]
  by_cases hm : m < 0
  · rw [decChars, if_pos hm]
    show pNum (('-' :: (natChars (m.natAbs / 10 ^ e)
      ++ '.' :: padDigits e (m.natAbs % 10 ^ e))) ++ rest) = _
    rw [hct, hpd]
    rw [show (('-' :: ((c :: t) ++ '.' :: (p :: ps))) ++ rest)
      = '-' :: (c :: (t ++ ('.' :: (p :: ps ++ rest)))) from by simp, pNum_neg_head,
      hbody true]
    simp [abs_of_neg hm]
  · rw [decChars, if_neg hm, List.nil_append, hct, hpd]
    rw [show ((c :: t) ++ '.' :: (p :: ps)) ++ rest
      = c :: (t ++ ('.' :: (p :: ps ++ rest))) from by simp,
      pNum_not_neg _ (digit_props hc).2.1, hbody false]
    simp [show (m.natAbs : Int) = m from by omega]

/-! ## Round-trip development: strings -/

lemma hexVal_hexChar (k : Nat) (h : k < 16) : hexVal (hexChar k) = some k := by
  interval_cases k <;> decide

/-- Reading one escaped character undoes `escChar`. -/
lemma pStrBody_escChar (c : Char) (cs : List Char) :
    pStrBody (escChar c ++ cs)
      = match pStrBody cs with
        | some (s, r) => some (c :: s, r)
        | none => none := by
  by_cases h1 : c = '"'
  · subst h1; rfl
  by_cases h2 : c = '\\'
  · subst h2; rfl
  by_cases h3 : c = '\x08'
  · subst h3; rfl
  by_cases h4 : c = '\t'
  · subst h4; rfl
  by_cases h5 : c = '\n'
  · subst h5; rfl
  by_cases h6 : c = '\x0c'
  · subst h6; rfl
  by_cases h7 : c = '\r'
  · subst h7; rfl
  rw [escChar, if_neg h1, if_neg h2, if_neg h3, if_neg h4, if_neg h5, if_neg h6, if_neg h7]
  by_cases h8 : c.toNat < 32
  · rw [if_pos h8]
    have hhi : hexVal (hexChar (c.toNat / 16)) = some (c.toNat / 16) :=
      hexVal_hexChar _ (by omega)
    have hlo : hexVal (hexChar (c.toNat % 16)) = some (c.toNat % 16) :=
      hexVal_hexChar _ (by omega)
    have hzero : hexVal '0' = some 0 := by decide
    show pStrBody ('\\' :: 'u' :: '0' :: '0' :: hexChar (c.toNat / 16)
      :: hexChar (c.toNat % 16) :: cs) = _
    rw [pStrBody, hzero, hhi, hlo]
    have harith : ((0 * 16 + 0) * 16 + c.toNat / 16) * 16 + c.toNat % 16 = c.toNat := by
      omega
    simp only [harith, Char.ofNat_toNat]
  · rw [if_neg h8]
    show pStrBody (c :: cs) = _
    rw [pStrBody.eq_def]
    split
    · rename_i heq
      cases heq
    · rename_i heq
      rw [List.cons.injEq] at heq
      exact absurd heq.1 h1
    · rename_i heq
      rw [List.cons.injEq] at heq
      exact absurd heq.1 h2
    · rename_i heq
      rw [List.cons.injEq] at heq
      exact absurd heq.1 h2
    · rename_i heq
      injection heq with h9 h10
      subst h9
      subst h10
      rfl

/-- Reading a whole escaped body stops at the closing quote and recovers the
original characters. -/
lemma pStrBody_escBody (l rest : List Char) :
    pStrBody (escBody l ++ '"' :: rest) = some (l, rest) := by
  induction l with
  | nil => rfl
  | cons c t ih =>
      rw [escBody, List.append_assoc, pStrBody_escChar, ih]

/-! ## Round-trip development: the shape of serialized output -/

lemma pad_length (n : Nat) : (pad n).length = n := by
  simp [pad]

/-- Every serialized value begins with a character that is not whitespace
and closes nothing. -/
lemma dumpVal_head (ind : Nat) (v : JValue) :
    ∃ c t, dumpVal ind v = c :: t ∧ jsonWs c = false ∧ c ≠ ']' ∧ c ≠ '\x7d' := by
  cases v with
  | str s => exact ⟨'"', _, rfl, by decide, by decide, by decide⟩
  | int n =>
      show ∃ c t, intChars n = c :: t ∧ _
      rw [intChars]
      by_cases hn : n < 0
      · rw [if_pos hn]
        exact ⟨'-', _, rfl, by decide, by decide, by decide⟩
      · rw [if_neg hn, List.nil_append]
        obtain ⟨c, t, hct, hc⟩ := natChars_head n.natAbs
        obtain ⟨hws, -, -, -, -, -, -, -, hrb, hrc, -⟩ := digit_props hc
        exact ⟨c, t, hct, hws, hrb, hrc⟩
  | dec m e =>
      show ∃ c t, decChars m e = c :: t ∧ _
      rw [decChars]
      by_cases hm : m < 0
      · rw [if_pos hm]
        exact ⟨'-', _, rfl, by decide, by decide, by decide⟩
      · rw [if_neg hm, List.nil_append]
        obtain ⟨c, t, hct, hc⟩ := natChars_head (m.natAbs / 10 ^ e)
        obtain ⟨hws, -, -, -, -, -, -, -, hrb, hrc, -⟩ := digit_props hc
        exact ⟨c, t ++ '.' :: padDigits e (m.natAbs % 10 ^ e), by rw [hct]; rfl, hws, hrb, hrc⟩
  | bool b =>
      cases b
      · exact ⟨'f', _, rfl, by decide, by decide, by decide⟩
      · exact ⟨'t', _, rfl, by decide, by decide, by decide⟩
  | arr xs =>
      cases xs
      · exact ⟨'[', _, rfl, by decide, by decide, by decide⟩
      · exact ⟨'[', _, rfl, by decide, by decide, by decide⟩
  | obj kvs =>
      match kvs with
      | [] => exact ⟨'\x7b', _, rfl, by decide, by decide, by decide⟩
      | (k, v) :: kvs => exact ⟨'\x7b', _, rfl, by decide, by decide, by decide⟩

/-- Serialized output never begins with whitespace. -/
lemma dropWs_dump (ind : Nat) (v : JValue) (rest : List Char) :
    dropWs (dumpVal ind v ++ rest) = dumpVal ind v ++ rest := by
  obtain ⟨c, t, hct, hws, -, -⟩ := dumpVal_head ind v
  rw [hct, List.cons_append, dropWs_cons_not hws]

/-- The continuation after an element or member begins with `,` or the
newline before the closing bracket: a number cannot be extended there. -/
lemma numStop_arrTail (ind : Nat) (xs : List JValue) (tail : List Char) :
    numStop (dumpArrTail ind xs ++ '\n' :: tail) = true := by
  cases xs <;> rfl

lemma numStop_objTail (ind : Nat) (kvs : List (String × JValue)) (tail : List Char) :
    numStop (dumpObjTail ind kvs ++ '\n' :: tail) = true := by
  match kvs with
  | [] => rfl
  | (k, v) :: kvs => rfl

/-! ## Round-trip development: parser dispatch lemmas -/

lemma pVal_cons (f : Nat) {c : Char} (t : List Char) (h : jsonWs c = false) :
    pVal (f + 1) (c :: t) = pValCore f c t := by
  rw [pVal, dropWs_cons_not h]

lemma pArrTail_at (f : Nat) {cs : List Char} {c : Char} {t : List Char}
    (h : dropWs cs = c :: t) : pArrTail (f + 1) cs = pArrTailCore f c t := by
  rw [pArrTail, h]

lemma pObjTail_at (f : Nat) {cs : List Char} {c : Char} {t : List Char}
    (h : dropWs cs = c :: t) : pObjTail (f + 1) cs = pObjTailCore f c t := by
  rw [pObjTail, h]

lemma dropWs_comma (cs : List Char) : dropWs (',' :: cs) = ',' :: cs :=
  dropWs_cons_not (by decide) cs

lemma pVal_skipLead (f : Nat) (cs : List Char) : pVal f cs = pVal f (dropWs cs) := by
  cases f with
  | zero => rw [pVal, pVal]
  | succ f =>
      conv_rhs => rw [pVal]
      rw [pVal, dropWs_idem]

lemma pValCore_str (f : Nat) (r : List Char) : pValCore f '"' r = pStrTok r := by
  rw [pValCore, if_pos rfl]

lemma pValCore_t (f : Nat) (r : List Char) : pValCore f 't' r = pTrueTok r := by
  rw [pValCore, if_neg (by decide), if_pos rfl]

lemma pValCore_false (f : Nat) (r : List Char) : pValCore f 'f' r = pFalseTok r := by
  rw [pValCore, if_neg (by decide), if_neg (by decide), if_pos rfl]

lemma pValCore_arr (f : Nat) (r : List Char) :
    pValCore f '[' r = pArrOpen f (dropWs r) := by
  rw [pValCore, if_neg (by decide), if_neg (by decide), if_neg (by decide), if_pos rfl]

lemma pValCore_obj (f : Nat) (r : List Char) :
    pValCore f '\x7b' r = pObjOpen f (dropWs r) := by
  rw [pValCore, if_neg (by decide), if_neg (by decide), if_neg (by decide),
    if_neg (by decide), if_pos rfl]

lemma pValCore_num (f : Nat) {c : Char} (r : List Char)
    (h : c = '-' ∨ isDigitCh c = true) : pValCore f c r = pNum (c :: r) := by
  rcases h with rfl | hd
  · rw [pValCore, if_neg (by decide), if_neg (by decide), if_neg (by decide),
      if_neg (by decide), if_neg (by decide), if_pos (by decide)]
  · obtain ⟨-, -, -, hq, ht', hf', hlb, hlcb, -, -, -⟩ := digit_props hd
    rw [pValCore, if_neg hq, if_neg ht', if_neg hf', if_neg hlb, if_neg hlcb,
      if_pos (by simp [hd])]

lemma intChars_head (n : Int) :
    ∃ c t, intChars n = c :: t ∧ jsonWs c = false ∧ (c = '-' ∨ isDigitCh c = true) := by
  rw [intChars]
  by_cases hn : n < 0
  · rw [if_pos hn]
    exact ⟨'-', _, rfl, by decide, Or.inl rfl⟩
  · rw [if_neg hn, List.nil_append]
    obtain ⟨c, t, hct, hc⟩ := natChars_head n.natAbs
    exact ⟨c, t, hct, (digit_props hc).1, Or.inr hc⟩

lemma decChars_head (m : Int) (e : Nat) :
    ∃ c t, decChars m e = c :: t ∧ jsonWs c = false ∧ (c = '-' ∨ isDigitCh c = true) := by
  rw [decChars]
  by_cases hm : m < 0
  · rw [if_pos hm]
    exact ⟨'-', _, rfl, by decide, Or.inl rfl⟩
  · rw [if_neg hm, List.nil_append]
    obtain ⟨c, t, hct, hc⟩ := natChars_head (m.natAbs / 10 ^ e)
    exact ⟨c, t ++ '.' :: padDigits e (m.natAbs % 10 ^ e), by rw [hct]; rfl,
      (digit_props hc).1, Or.inr hc⟩

/-! ## The round trip itself -/

mutual

/-- Parsing the serialization of a well-formed value, at any indentation,
recovers the value and leaves the remainder untouched. -/
theorem rt_val : ∀ (v : JValue) (ind fuel : Nat) (rest : List Char),
    wfVal v = true → (dumpVal ind v).length < fuel → numStop rest = true →
    pVal fuel (dumpVal ind v ++ rest) = some (v, rest)
  | .str s, ind, fuel, rest, _, hf, _ => by
      cases fuel with
      | zero => exact absurd hf (Nat.not_lt_zero _)
      | succ f =>
          rw [show dumpVal ind (.str s) ++ rest
            = '"' :: (escBody s.data ++ ('"' :: rest)) from by simp [dumpVal, quoteStr],
            pVal_cons f _ (by decide), pValCore_str, pStrTok, pStrBody_escBody]
  | .int n, ind, fuel, rest, _, hf, hrest => by
      cases fuel with
      | zero => exact absurd hf (Nat.not_lt_zero _)
      | succ f =>
          obtain ⟨c, t, hct, hws, hsign⟩ := intChars_head n
          rw [show dumpVal ind (.int n) = intChars n from rfl, hct, List.cons_append,
            pVal_cons f _ hws, pValCore_num f _ hsign, ← List.cons_append, ← hct,
            pNum_int n rest hrest]
  | .dec m e, ind, fuel, rest, hwf, hf, hrest => by
      cases fuel with
      | zero => exact absurd hf (Nat.not_lt_zero _)
      | succ f =>
          obtain ⟨c, t, hct, hws, hsign⟩ := decChars_head m e
          rw [show dumpVal ind (.dec m e) = decChars m e from rfl, hct, List.cons_append,
            pVal_cons f _ hws, pValCore_num f _ hsign, ← List.cons_append, ← hct,
            pNum_dec m e (of_decide_eq_true hwf) rest hrest]
  | .bool true, ind, fuel, rest, _, hf, _ => by
      cases fuel with
      | zero => exact absurd hf (Nat.not_lt_zero _)
      | succ f =>
          rw [show dumpVal ind (.bool true) ++ rest
              = 't' :: ('r' :: 'u' :: 'e' :: rest) from rfl,
            pVal_cons f _ (by decide), pValCore_t]
          rfl
  | .bool false, ind, fuel, rest, _, hf, _ => by
      cases fuel with
      | zero => exact absurd hf (Nat.not_lt_zero _)
      | succ f =>
          rw [show dumpVal ind (.bool false) ++ rest
              = 'f' :: ('a' :: 'l' :: 's' :: 'e' :: rest) from rfl,
            pVal_cons f _ (by decide), pValCore_false]
          rfl
  | .arr [], ind, fuel, rest, _, hf, _ => by
      cases fuel with
      | zero => exact absurd hf (Nat.not_lt_zero _)
      | succ f =>
          rw [show dumpVal ind (.arr []) ++ rest = '[' :: (']' :: rest) from rfl,
            pVal_cons f _ (by decide), pValCore_arr, dropWs_cons_not (by decide),
            pArrOpen, pArrFirst, if_pos rfl]
  | .arr (x :: xs), ind, fuel, rest, hwf, hf, _ => by
      cases fuel with
      | zero => exact absurd hf (Nat.not_lt_zero _)
      | succ f =>
          have hwx : wfVal x = true ∧ wfList xs = true := by
            have : wfList (x :: xs) = true := hwf
            rw [wfList, Bool.and_eq_true] at this
            exact this
          have hflen := hf
          rw [show dumpVal ind (.arr (x :: xs))
              = '[' :: '\n' :: (pad (ind + 2) ++ dumpVal (ind + 2) x ++
                (dumpArrTail (ind + 2) xs ++ '\n' :: (pad ind ++ [']']))) from rfl] at hflen
          simp only [List.length_cons, List.length_append, pad_length] at hflen
          have hlx : (dumpVal (ind + 2) x).length < f := by omega
          have hlxs : (dumpArrTail (ind + 2) xs).length + 1 < f := by omega
          rw [show dumpVal ind (.arr (x :: xs)) ++ rest
            = '[' :: ('\n' :: (pad (ind + 2) ++ (dumpVal (ind + 2) x ++
                (dumpArrTail (ind + 2) xs ++ '\n' :: (pad ind ++ (']' :: rest))))))
            from by simp [dumpVal],
            pVal_cons f _ (by decide), pValCore_arr, dropWs_cons_ws (by decide),
            dropWs_pad, dropWs_dump]
          obtain ⟨c1, t1, hct1, hws1, hbr1, -⟩ := dumpVal_head (ind + 2) x
          rw [hct1, List.cons_append, pArrOpen, pArrFirst, if_neg hbr1,
            ← List.cons_append, ← hct1]
          have hv := rt_val x (ind + 2) f
            (dumpArrTail (ind + 2) xs ++ '\n' :: (pad ind ++ (']' :: rest)))
            hwx.1 hlx (numStop_arrTail _ _ _)
          rw [hv, pArrCont]
          have ht := rt_arr xs (ind + 2) ind f rest hwx.2 hlxs
          rw [ht]
          rfl
  | .obj [], ind, fuel, rest, _, hf, _ => by
      cases fuel with
      | zero => exact absurd hf (Nat.not_lt_zero _)
      | succ f =>
          rw [show dumpVal ind (.obj []) ++ rest = '\x7b' :: ('\x7d' :: rest) from rfl,
            pVal_cons f _ (by decide), pValCore_obj, dropWs_cons_not (by decide),
            pObjOpen, pObjFirst, if_pos rfl]
  | .obj ((k, v) :: kvs), ind, fuel, rest, hwf, hf, _ => by
      cases fuel with
      | zero => exact absurd hf (Nat.not_lt_zero _)
      | succ f =>
          have hwx : wfVal v = true ∧ wfKVs kvs = true := by
            have : wfKVs ((k, v) :: kvs) = true := hwf
            rw [wfKVs, Bool.and_eq_true] at this
            exact this
          have hflen := hf
          rw [show dumpVal ind (.obj ((k, v) :: kvs))
              = '\x7b' :: '\n' :: (pad (ind + 2) ++ quoteStr k ++ ':' :: ' ' ::
                (dumpVal (ind + 2) v ++
                  (dumpObjTail (ind + 2) kvs ++ '\n' :: (pad ind ++ ['\x7d'])))) from rfl,
            quoteStr] at hflen
          simp only [List.length_cons, List.length_append, pad_length] at hflen
          have hlv : (dumpVal (ind + 2) v).length < f := by omega
          have hlkvs : (dumpObjTail (ind + 2) kvs).length + 1 < f := by omega
          rw [show dumpVal ind (.obj ((k, v) :: kvs)) ++ rest
            = '\x7b' :: ('\n' :: (pad (ind + 2) ++ ('"' :: (escBody k.data ++
                ('"' :: (':' :: ' ' :: (dumpVal (ind + 2) v ++
                  (dumpObjTail (ind + 2) kvs ++ '\n' :: (pad ind ++ ('\x7d' :: rest))))))))))
            from by simp [dumpVal, quoteStr],
            pVal_cons f _ (by decide), pValCore_obj, dropWs_cons_ws (by decide),
            dropWs_pad, dropWs_cons_not (by decide), pObjOpen, pObjFirst,
            if_neg (by decide), if_pos rfl]
          have hm := rt_member k v kvs (ind + 2) ind f rest hwx.1 hwx.2 hlv hlkvs
          rw [hm]
          rfl
termination_by v _ _ _ _ _ _ => sizeOf v
decreasing_by all_goals (simp_wf; try omega)

/-- Parsing one serialized `key: value` member followed by the member loop. -/
theorem rt_member : ∀ (k : String) (v : JValue) (kvs : List (String × JValue))
    (ind j fuel : Nat) (rest : List Char),
    wfVal v = true → wfKVs kvs = true →
    (dumpVal ind v).length < fuel → (dumpObjTail ind kvs).length + 1 < fuel →
    pMember fuel (escBody k.data ++ ('"' :: (':' :: ' ' :: (dumpVal ind v ++
        (dumpObjTail ind kvs ++ '\n' :: (pad j ++ ('\x7d' :: rest)))))))
      = some ((k, v) :: kvs, rest)
  | k, v, kvs, ind, j, fuel, rest, hwv, hwkvs, hlv, hlkvs => by
      rw [pMember.eq_def, pStrBody_escBody]
      show pMemberRest fuel k.data (dropWs (':' :: ' ' :: (dumpVal ind v ++
        (dumpObjTail ind kvs ++ '\n' :: (pad j ++ ('\x7d' :: rest)))))) = _
      rw [dropWs_cons_not (by decide), pMemberRest, pMemberColon, if_pos rfl]
      have hv : pVal fuel (' ' :: (dumpVal ind v ++
          (dumpObjTail ind kvs ++ '\n' :: (pad j ++ ('\x7d' :: rest)))))
          = some (v, dumpObjTail ind kvs ++ '\n' :: (pad j ++ ('\x7d' :: rest))) := by
        rw [pVal_skipLead, dropWs_cons_ws (by decide), dropWs_dump]
        exact rt_val v ind fuel _ hwv hlv (numStop_objTail _ _ _)
      rw [hv, pMemberVal]
      have ht := rt_obj kvs ind j fuel rest hwkvs hlkvs
      rw [ht]
      rfl
termination_by _ v kvs _ _ _ _ _ _ _ _ => 1 + sizeOf v + sizeOf kvs
decreasing_by all_goals (simp_wf; try omega)

/-- Parsing the serialized tail of an array (the elements after the first)
up to its closing bracket. -/
theorem rt_arr : ∀ (xs : List JValue) (ind j fuel : Nat) (rest : List Char),
    wfList xs = true → (dumpArrTail ind xs).length + 1 < fuel →
    pArrTail fuel (dumpArrTail ind xs ++ '\n' :: (pad j ++ (']' :: rest)))
      = some (xs, rest)
  | [], ind, j, fuel, rest, _, hf => by
      cases fuel with
      | zero => exact absurd hf (Nat.not_lt_zero _)
      | succ f =>
          rw [show dumpArrTail ind [] ++ '\n' :: (pad j ++ (']' :: rest))
              = '\n' :: (pad j ++ (']' :: rest)) from rfl]
          have hdrop : dropWs ('\n' :: (pad j ++ (']' :: rest))) = ']' :: rest := by
            rw [dropWs_cons_ws (by decide), dropWs_pad, dropWs_cons_not (by decide)]
          rw [pArrTail_at f hdrop, pArrTailCore, if_neg (by decide), if_pos rfl]
  | x :: xs, ind, j, fuel, rest, hwf, hf => by
      cases fuel with
      | zero => exact absurd hf (Nat.not_lt_zero _)
      | succ f =>
          have hwx : wfVal x = true ∧ wfList xs = true := by
            rw [wfList, Bool.and_eq_true] at hwf
            exact hwf
          have hflen := hf
          rw [show dumpArrTail ind (x :: xs)
              = ',' :: '\n' :: (pad ind ++ dumpVal ind x ++ dumpArrTail ind xs)
              from rfl] at hflen
          simp only [List.length_cons, List.length_append, pad_length] at hflen
          have hlx : (dumpVal ind x).length < f := by omega
          have hlxs : (dumpArrTail ind xs).length + 1 < f := by omega
          rw [show dumpArrTail ind (x :: xs) ++ '\n' :: (pad j ++ (']' :: rest))
            = ',' :: ('\n' :: (pad ind ++ (dumpVal ind x ++
                (dumpArrTail ind xs ++ '\n' :: (pad j ++ (']' :: rest))))))
            from by simp [dumpArrTail],
            pArrTail_at f (dropWs_comma _), pArrTailCore, if_pos rfl]
          have hv : pVal f ('\n' :: (pad ind ++ (dumpVal ind x ++
              (dumpArrTail ind xs ++ '\n' :: (pad j ++ (']' :: rest))))))
              = some (x, dumpArrTail ind xs ++ '\n' :: (pad j ++ (']' :: rest))) := by
            rw [pVal_skipLead, dropWs_cons_ws (by decide), dropWs_pad, dropWs_dump]
            exact rt_val x ind f _ hwx.1 hlx (numStop_arrTail _ _ _)
          rw [hv, pArrStep]
          have ht := rt_arr xs ind j f rest hwx.2 hlxs
          rw [ht]
          rfl
termination_by xs _ _ _ _ _ _ => sizeOf xs
decreasing_by all_goals (simp_wf; try omega)

/-- Parsing the serialized tail of an object (the members after the first)
up to its closing brace. -/
theorem rt_obj : ∀ (kvs : List (String × JValue)) (ind j fuel : Nat) (rest : List Char),
    wfKVs kvs = true → (dumpObjTail ind kvs).length + 1 < fuel →
    pObjTail fuel (dumpObjTail ind kvs ++ '\n' :: (pad j ++ ('\x7d' :: rest)))
      = some (kvs, rest)
  | [], ind, j, fuel, rest, _, hf => by
      cases fuel with
      | zero => exact absurd hf (Nat.not_lt_zero _)
      | succ f =>
          rw [show dumpObjTail ind [] ++ '\n' :: (pad j ++ ('\x7d' :: rest))
              = '\n' :: (pad j ++ ('\x7d' :: rest)) from rfl]
          have hdrop : dropWs ('\n' :: (pad j ++ ('\x7d' :: rest))) = '\x7d' :: rest := by
            rw [dropWs_cons_ws (by decide), dropWs_pad, dropWs_cons_not (by decide)]
          rw [pObjTail_at f hdrop, pObjTailCore, if_neg (by decide), if_pos rfl]
  | (k, v) :: kvs, ind, j, fuel, rest, hwf, hf => by
      cases fuel with
      | zero => exact absurd hf (Nat.not_lt_zero _)
      | succ f =>
          have hwx : wfVal v = true ∧ wfKVs kvs = true := by
            rw [wfKVs, Bool.and_eq_true] at hwf
            exact hwf
          have hflen := hf
          rw [show dumpObjTail ind ((k, v) :: kvs)
              = ',' :: '\n' :: (pad ind ++ quoteStr k ++ ':' :: ' ' ::
                (dumpVal ind v ++ dumpObjTail ind kvs)) from rfl, quoteStr] at hflen
          simp only [List.length_cons, List.length_append, pad_length] at hflen
          have hlv : (dumpVal ind v).length < f := by omega
          have hlkvs : (dumpObjTail ind kvs).length + 1 < f := by omega
          rw [show dumpObjTail ind ((k, v) :: kvs) ++ '\n' :: (pad j ++ ('\x7d' :: rest))
            = ',' :: ('\n' :: (pad ind ++ ('"' :: (escBody k.data ++
                ('"' :: (':' :: ' ' :: (dumpVal ind v ++
                  (dumpObjTail ind kvs ++ '\n' :: (pad j ++ ('\x7d' :: rest))))))))))
            from by simp [dumpObjTail, quoteStr],
            pObjTail_at f (dropWs_comma _), pObjTailCore, if_pos rfl,
            dropWs_cons_ws (by decide), dropWs_pad, dropWs_cons_not (by decide),
            pObjStep, if_pos rfl]
          exact rt_member k v kvs ind j f rest hwx.1 hwx.2 hlv hlkvs
termination_by kvs _ _ _ _ _ _ => sizeOf kvs
decreasing_by all_goals (simp_wf; try omega)

end

/-- The whole-document round trip for every serializable value. -/
theorem parseJson_jsonDump (v : JValue) (h : wfVal v = true) :
    parseJson (jsonDump v) = some v := by
  have hv := rt_val v 0 ((dumpVal 0 v).length + 1) [] h (by omega) rfl
  rw [List.append_nil] at hv
  rw [parseJson, jsonDump]
  show (match pVal ((dumpVal 0 v).length + 1) (dumpVal 0 v) with
    | some (w, rest) => if dropWs rest = [] then some w else none
    | none => none) = some v
  rw [hv]
  rfl


/-! ## Shared lemmas -/

/-- The catalog holds only `"basic"`, so every variant collapses to it. -/
lemma workflow_eq_basic (wt : String) : generate_comfyui_workflow wt = basicWorkflow := by
  by_cases h : ("basic" : String) = wt <;>
    simp [generate_comfyui_workflow, workflowCatalog, getKey, h]

/-- Appending different-length suffixes to one string yields different
strings. -/
lemma append_left_ne {s a b : String} (h : a.length ≠ b.length) : s ++ a ≠ s ++ b := by
  intro e
  apply h
  have hl := congrArg String.length e
  rw [String.length_append, String.length_append] at hl
  omega

/-- A newline-free character list is a single line. -/
lemma splitNl_no_nl (l : List Char) (h : '\n' ∉ l) : splitNl l = [l] := by
  induction l with
  | nil => rfl
  | cons c cs ih =>
      rw [List.mem_cons] at h
      push_neg at h
      rw [splitNl, if_neg (fun hc => h.1 hc.symm), ih h.2]

/-- Splitting peels one newline-free line off the front. -/
lemma splitNl_append (l rest : List Char) (h : '\n' ∉ l) :
    splitNl (l ++ '\n' :: rest) = l :: splitNl rest := by
  induction l with
  | nil => simp [splitNl]
  | cons c cs ih =>
      rw [List.mem_cons] at h
      push_neg at h
      rw [List.cons_append, splitNl, if_neg (fun hc => h.1 hc.symm), ih h.2]

/-- `textLines` inverts `joinLines` on nonempty newline-free line lists. -/
lemma textLines_joinLines : ∀ xs : List String, xs ≠ [] → (∀ x ∈ xs, '\n' ∉ x.data) →
    textLines (joinLines xs) = xs
  | [], h, _ => absurd rfl h
  | [l], _, h => by
      simp [textLines, joinLines, splitNl_no_nl l.data (h l (by simp))]
  | l :: l' :: ls, _, h => by
      have ih := textLines_joinLines (l' :: ls) (by simp)
        (fun x hx => h x (List.mem_cons_of_mem _ hx))
      have hdata : (joinLines (l :: l' :: ls)).data
          = l.data ++ '\n' :: (joinLines (l' :: ls)).data := by
        show ((l ++ "\n") ++ joinLines (l' :: ls)).data = _
        rw [String.data_append, String.data_append]
        simp [List.append_assoc]
      rw [textLines, hdata, splitNl_append _ _ (h l (by simp))]
      rw [List.map_cons]
      refine congrArg₂ _ rfl ih

/-- `generate_nginx_config` deconstructed into its lines. -/
lemma nginx_no_nl (sn : String) (h : '\n' ∉ sn.data) :
    ∀ x ∈ nginxLines sn, '\n' ∉ x.data := by
  intro x hx
  rw [nginxLines] at hx
  rcases List.mem_append.mp hx with hpre | hx
  · have : x = "server \x7b" ∨ x = "    listen 80;" := by simpa [nginxPre] using hpre
    rcases this with rfl | rfl <;> decide
  · rcases List.mem_cons.mp hx with rfl | hpost
    · intro hnl
      rw [String.data_append, String.data_append] at hnl
      rcases List.mem_append.mp hnl with h1 | h2
      · rcases List.mem_append.mp h1 with h3 | h4
        · exact absurd h3 (by decide)
        · exact h h4
      · exact absurd h2 (by decide)
    · have hall : ∀ y ∈ nginxPost, '\n' ∉ y.data := by decide
      exact hall x hpost

/-- The generated nginx text splits back into the template's lines. -/
lemma textLines_nginx (g : ConfigGenerator) (dom : Option String) (h : domOk dom) :
    textLines (generate_nginx_config g dom) = nginxLines (serverNameOf dom) := by
  cases dom with
  | none =>
      exact textLines_joinLines _ (by simp [nginxLines, nginxPre])
        (nginx_no_nl "_" (by decide))
  | some d =>
      show textLines (joinLines (nginxLines (if d = "" then "_" else d))) = _
      rw [if_neg h.1]
      exact textLines_joinLines _ (by simp [nginxLines, nginxPre]) (nginx_no_nl d h.2)

/-! ## The claims -/

/-- C1: `optimize_for_gpu_memory` picks its tier from `gpu_memory_gb` alone,
lower bounds inclusive, checked high-to-low: at `≥ 24` the profile has
`batch_size` 4 and `memory_fraction` 0.9; at `12 ≤ · < 24` it has
`batch_size` 2 and `memory_fraction` 0.8; below 12 it has `batch_size` 1,
`memory_fraction` 0.7 and `enable_sequential_cpu_offload` set to `True`
(`.dec m 1` is the float literal `m/10`). -/
theorem optimize_for_gpu_memory_tiers (g : ConfigGenerator) :
    (24 ≤ g.gpu_memory_gb →
      jget (optimize_for_gpu_memory g) "batch_size" = some (.int 4) ∧
      jget (optimize_for_gpu_memory g) "memory_fraction" = some (.dec 9 1)) ∧
    (12 ≤ g.gpu_memory_gb → g.gpu_memory_gb < 24 →
      jget (optimize_for_gpu_memory g) "batch_size" = some (.int 2) ∧
      jget (optimize_for_gpu_memory g) "memory_fraction" = some (.dec 8 1)) ∧
    (g.gpu_memory_gb < 12 →
      jget (optimize_for_gpu_memory g) "batch_size" = some (.int 1) ∧
      jget (optimize_for_gpu_memory g) "memory_fraction" = some (.dec 7 1) ∧
      jget (optimize_for_gpu_memory g) "enable_sequential_cpu_offload" = some (.bool true)) := by
  unfold optimize_for_gpu_memory
  refine ⟨fun h24 => ?_, fun h12 h24 => ?_, fun h12 => ?_⟩
  · rw [if_pos (by omega : g.gpu_memory_gb ≥ 24)]
    exact ⟨rfl, rfl⟩
  · rw [if_neg (by omega : ¬g.gpu_memory_gb ≥ 24), if_pos (by omega : g.gpu_memory_gb ≥ 12)]
    exact ⟨rfl, rfl⟩
  · rw [if_neg (by omega : ¬g.gpu_memory_gb ≥ 24), if_neg (by omega : ¬g.gpu_memory_gb ≥ 12)]
    exact ⟨rfl, rfl, rfl⟩

/-- C1 witness: the three tiers at the sample readings 24, 12 and 8. -/
theorem optimize_for_gpu_memory_tiers_witness :
    jget (optimize_for_gpu_memory ⟨"/w", "/c", 24⟩) "batch_size" = some (.int 4) ∧
    jget (optimize_for_gpu_memory ⟨"/w", "/c", 12⟩) "batch_size" = some (.int 2) ∧
    jget (optimize_for_gpu_memory ⟨"/w", "/c", 8⟩) "enable_sequential_cpu_offload"
      = some (.bool true) :=
  ⟨((optimize_for_gpu_memory_tiers ⟨"/w", "/c", 24⟩).1 (by decide)).1,
   ((optimize_for_gpu_memory_tiers ⟨"/w", "/c", 12⟩).2.1 (by decide) (by decide)).1,
   ((optimize_for_gpu_memory_tiers ⟨"/w", "/c", 8⟩).2.2 (by decide)).2.2⟩

/-- C2: `generate_comfyui_workflow` is total and every variant string —
recognized or not — returns the same graph as `"basic"`. -/
theorem generate_comfyui_workflow_total (wt : String) :
    generate_comfyui_workflow wt = generate_comfyui_workflow "basic" := by
  rw [workflow_eq_basic, workflow_eq_basic]

/-- C5: the supervisor document has exactly the two program sections
`program:comfyui` and `program:fastapi` (in that order), and in each the
stdout and stderr log paths differ (their suffixes under the working
directory have different lengths). -/
theorem supervisor_two_programs (g : ConfigGenerator) :
    (jkeys (generate_supervisor_config g)).filter (fun k => hasPre "program:" k)
      = ["program:comfyui", "program:fastapi"] ∧
    jpath (generate_supervisor_config g) ["program:comfyui", "stdout_logfile"]
      = some (.str (g.work_dir ++ "/logs/comfyui.log")) ∧
    jpath (generate_supervisor_config g) ["program:comfyui", "stderr_logfile"]
      = some (.str (g.work_dir ++ "/logs/comfyui.error.log")) ∧
    g.work_dir ++ "/logs/comfyui.log" ≠ g.work_dir ++ "/logs/comfyui.error.log" ∧
    jpath (generate_supervisor_config g) ["program:fastapi", "stdout_logfile"]
      = some (.str (g.work_dir ++ "/logs/fastapi.log")) ∧
    jpath (generate_supervisor_config g) ["program:fastapi", "stderr_logfile"]
      = some (.str (g.work_dir ++ "/logs/fastapi.error.log")) ∧
    g.work_dir ++ "/logs/fastapi.log" ≠ g.work_dir ++ "/logs/fastapi.error.log" :=
  ⟨rfl, rfl, rfl, append_left_ne (by decide), rfl, rfl, append_left_ne (by decide)⟩

/-- C7: whenever the GPU probe fails — the command is missing or exits
non-zero (`probe = none`), or its first stdout line does not parse as an
integer — the constructed context carries the fallback value 8. -/
theorem gpu_probe_fallback (wd cd : String) (probe : Option String)
    (h : probe = none ∨ ∃ out, probe = some out ∧ pyInt (firstLine (pyStrip out)) = none) :
    (mkConfigGenerator wd cd probe).gpu_memory_gb = 8 := by
  rcases h with rfl | ⟨out, rfl, hp⟩
  · rfl
  · simp [mkConfigGenerator, get_gpu_memory, hp]

/-- C7 witness: a missing command and an unparseable probe output. -/
theorem gpu_probe_fallback_witness :
    (mkConfigGenerator "/w" "/c" none).gpu_memory_gb = 8 ∧
    (mkConfigGenerator "/w" "/c" (some "N/A")).gpu_memory_gb = 8 :=
  ⟨gpu_probe_fallback "/w" "/c" none (Or.inl rfl),
   gpu_probe_fallback "/w" "/c" (some "N/A") (Or.inr ⟨"N/A", rfl, by decide⟩)⟩

/-- C4: the nginx text's third line carries the chosen server name — the
wildcard `_` without a domain, the domain string itself with one — and two
calls differ in no other line. -/
theorem nginx_server_name (g g' : ConfigGenerator) (dom1 dom2 : Option String)
    (h1 : domOk dom1) (h2 : domOk dom2) :
    (textLines (generate_nginx_config g dom1)).get? 2
        = some ("    server_name " ++ serverNameOf dom1 ++ ";") ∧
    (∀ i, i ≠ 2 → (textLines (generate_nginx_config g dom1)).get? i
        = (textLines (generate_nginx_config g' dom2)).get? i) := by
  rw [textLines_nginx g dom1 h1, textLines_nginx g' dom2 h2]
  refine ⟨rfl, fun i hi => ?_⟩
  match i with
  | 0 => rfl
  | 1 => rfl
  | 2 => exact absurd rfl hi
  | n + 3 => rfl

/-- C4 witness: no domain gives the wildcard line, `example.com` gives
itself, at the same line index. -/
theorem nginx_server_name_witness :
    (textLines (generate_nginx_config ⟨"/w", "/c", 8⟩ none)).get? 2
      = some "    server_name _;" ∧
    (textLines (generate_nginx_config ⟨"/w", "/c", 8⟩ (some "example.com"))).get? 2
      = some "    server_name example.com;" :=
  ⟨(nginx_server_name ⟨"/w", "/c", 8⟩ ⟨"/w", "/c", 8⟩ none none trivial trivial).1,
   (nginx_server_name ⟨"/w", "/c", 8⟩ ⟨"/w", "/c", 8⟩ (some "example.com") none
     ⟨by decide, by decide⟩ trivial).1⟩

/-- C3 counterexample: the claim reads both services' restart policy as the
compose policy named `on-failure`, but at a concrete context the generated
descriptor carries `unless-stopped` for both services. -/
theorem docker_restart_counterexample :
    ¬ (jpath (generate_docker_compose ⟨"/w", "/c", 8⟩)
          ["services", "comfyui-service", "restart"] = some (.str "on-failure") ∧
       jpath (generate_docker_compose ⟨"/w", "/c", 8⟩)
          ["services", "nginx", "restart"] = some (.str "on-failure")) ∧
    jpath (generate_docker_compose ⟨"/w", "/c", 8⟩)
        ["services", "comfyui-service", "restart"] = some (.str "unless-stopped") ∧
    jpath (generate_docker_compose ⟨"/w", "/c", 8⟩)
        ["services", "nginx", "restart"] = some (.str "unless-stopped") := by
  refine ⟨fun h => ?_, rfl, rfl⟩
  exact absurd h.1 (by decide)

/-- C3 (amended): the compose descriptor has the claimed two-service shape —
the application service with a build context, two published ports, three
volume mounts including the working directory and the shared model
directory, two environment variables and a GPU reservation requesting one
accelerator, and the proxy service with the fixed image, two ports, three
config mounts and a dependency on the application service — except that
both restart policies are `unless-stopped`, not `on-failure`. -/
theorem docker_compose_shape (g : ConfigGenerator) :
    jpath (generate_docker_compose g) ["services", "comfyui-service", "build", "context"]
      = some (.str ".") ∧
    jpath (generate_docker_compose g) ["services", "comfyui-service", "ports"]
      = some (.arr [.str "8000:8000", .str "8188:8188"]) ∧
    jpath (generate_docker_compose g) ["services", "comfyui-service", "volumes"]
      = some (.arr [.str (g.work_dir ++ ":/app"), .str "/models:/models",
          .str "./logs:/app/logs"]) ∧
    jpath (generate_docker_compose g) ["services", "comfyui-service", "environment"]
      = some (.arr [.str "PYTHONPATH=/app", .str "CUDA_VISIBLE_DEVICES=0"]) ∧
    jpath (generate_docker_compose g)
        ["services", "comfyui-service", "deploy", "resources", "reservations", "devices"]
      = some (.arr [.obj [("driver", .str "nvidia"), ("count", .int 1),
          ("capabilities", .arr [.str "gpu"])]]) ∧
    jpath (generate_docker_compose g) ["services", "comfyui-service", "restart"]
      = some (.str "unless-stopped") ∧
    jpath (generate_docker_compose g) ["services", "nginx", "image"]
      = some (.str "nginx:alpine") ∧
    jpath (generate_docker_compose g) ["services", "nginx", "ports"]
      = some (.arr [.str "80:80", .str "443:443"]) ∧
    jpath (generate_docker_compose g) ["services", "nginx", "volumes"]
      = some (.arr [.str "./nginx/nginx.conf:/etc/nginx/nginx.conf",
          .str "./nginx/sites-available:/etc/nginx/sites-available",
          .str "./nginx/ssl:/etc/nginx/ssl"]) ∧
    jpath (generate_docker_compose g) ["services", "nginx", "depends_on"]
      = some (.arr [.str "comfyui-service"]) ∧
    jpath (generate_docker_compose g) ["services", "nginx", "restart"]
      = some (.str "unless-stopped") :=
  ⟨rfl, rfl, rfl, rfl, rfl, rfl, rfl, rfl, rfl, rfl, rfl⟩

/-! ## `save_config` lemmas shared by the error-handling claims -/

lemma getFile_setFile (files : List (String × String)) (p c : String) :
    getFile (setFile files p c) p = some c := by
  induction files with
  | nil => simp [setFile, getFile]
  | cons qd rest ih =>
      obtain ⟨q, d⟩ := qd
      by_cases h : q = p <;> simp [setFile, getFile, h, ih]

/-- A recognized-format write into a writable location succeeds with an
info record and the serialized text on disk. -/
lemma save_config_success (fs : FileSys) (g : ConfigGenerator) (config : JValue)
    (filename fmt : String)
    (hfmt : fmt = "json" ∨ fmt = "ini" ∨ fmt = "text")
    (hw : fs.writable (joinPath g.work_dir filename) = true)
    (hobj : fmt = "ini" → ∃ kvs, config = .obj kvs) :
    save_config fs g config filename fmt
      = ⟨⟨fs.writable, setFile (setFile fs.files (joinPath g.work_dir filename) "")
            (joinPath g.work_dir filename) (serializedText fmt config)⟩,
         [.info ("配置已保存: " ++ joinPath g.work_dir filename)], true⟩ := by
  rcases hfmt with rfl | rfl | rfl
  · simp [save_config, openWrite, hw, putContent, serializedText]
  · obtain ⟨kvs, rfl⟩ := hobj rfl
    simp [save_config, openWrite, hw, putContent, serializedText]
  · simp [save_config, openWrite, hw, putContent, serializedText]

/-- A recognized-format write into an unwritable location fails at `open`:
the exception is caught, an error is logged, the filesystem is untouched
and `False` is returned. -/
lemma save_config_failure (fs : FileSys) (g : ConfigGenerator) (config : JValue)
    (filename fmt : String)
    (hfmt : fmt = "json" ∨ fmt = "ini" ∨ fmt = "text")
    (hw : fs.writable (joinPath g.work_dir filename) = false) :
    save_config fs g config filename fmt
      = ⟨fs, [.error ("保存配置失败: [Errno 13] Permission denied: "
            ++ joinPath g.work_dir filename)], false⟩ := by
  rcases hfmt with rfl | rfl | rfl <;>
  · simp [save_config, openWrite, hw]
    rw [← String.append_assoc]
    rfl

/-- C6: `save_config` never lets the write's exception escape — it always
returns a boolean (the embedding is a total function into `SaveResult`):
`True` with an info record when the write goes through, `False` with an
error record and the filesystem untouched when opening the target fails. -/
theorem save_config_error_boundary (fs : FileSys) (g : ConfigGenerator) (config : JValue)
    (filename fmt : String)
    (hfmt : fmt = "json" ∨ fmt = "ini" ∨ fmt = "text") :
    (fs.writable (joinPath g.work_dir filename) = true →
      (fmt = "ini" → ∃ kvs, config = .obj kvs) →
      (save_config fs g config filename fmt).ok = true ∧
      (save_config fs g config filename fmt).log
        = [.info ("配置已保存: " ++ joinPath g.work_dir filename)] ∧
      getFile (save_config fs g config filename fmt).fs.files (joinPath g.work_dir filename)
        = some (serializedText fmt config)) ∧
    (fs.writable (joinPath g.work_dir filename) = false →
      (save_config fs g config filename fmt).ok = false ∧
      (∃ m, (save_config fs g config filename fmt).log = [.error m]) ∧
      (save_config fs g config filename fmt).fs.files = fs.files) := by
  constructor
  · intro hw hobj
    rw [save_config_success fs g config filename fmt hfmt hw hobj]
    exact ⟨rfl, rfl, getFile_setFile _ _ _⟩
  · intro hw
    rw [save_config_failure fs g config filename fmt hfmt hw]
    exact ⟨rfl, ⟨_, rfl⟩, rfl⟩

/-- C6 witness: a JSON write into a writable location returns `True` with
the serialized text on disk; the same write into an unwritable location
returns `False` leaving the filesystem untouched. -/
theorem save_config_error_boundary_witness :
    ((save_config ⟨fun _ => true, []⟩ ⟨"/w", "/c", 8⟩ (.obj []) "f.json" "json").ok = true ∧
      getFile (save_config ⟨fun _ => true, []⟩ ⟨"/w", "/c", 8⟩ (.obj [])
          "f.json" "json").fs.files (joinPath "/w" "f.json")
        = some (serializedText "json" (.obj []))) ∧
    ((save_config ⟨fun _ => false, []⟩ ⟨"/w", "/c", 8⟩ (.obj []) "f.json" "json").ok = false ∧
      (save_config ⟨fun _ => false, []⟩ ⟨"/w", "/c", 8⟩ (.obj [])
          "f.json" "json").fs.files = []) :=
  have h1 := (save_config_error_boundary ⟨fun _ => true, []⟩ ⟨"/w", "/c", 8⟩ (.obj [])
    "f.json" "json" (Or.inl rfl)).1 rfl (fun hh => absurd hh (by decide))
  have h2 := (save_config_error_boundary ⟨fun _ => false, []⟩ ⟨"/w", "/c", 8⟩ (.obj [])
    "f.json" "json" (Or.inl rfl)).2 rfl
  ⟨⟨h1.1, h1.2.2⟩, ⟨h2.1, h2.2.2⟩⟩

/-- C8: without write permission on the target, `save_config` returns
`False` and leaves the filesystem exactly as it was — in particular the
target file is not created and no partial content appears (`open(…, 'w')`
raises before anything is written). -/
theorem save_config_no_partial_write (fs : FileSys) (g : ConfigGenerator) (config : JValue)
    (filename fmt : String)
    (hfmt : fmt = "json" ∨ fmt = "ini" ∨ fmt = "text")
    (hw : fs.writable (joinPath g.work_dir filename) = false) :
    (save_config fs g config filename fmt).ok = false ∧
    (save_config fs g config filename fmt).fs.files = fs.files ∧
    getFile (save_config fs g config filename fmt).fs.files (joinPath g.work_dir filename)
      = getFile fs.files (joinPath g.work_dir filename) := by
  rw [save_config_failure fs g config filename fmt hfmt hw]
  exact ⟨rfl, rfl, rfl⟩

/-- C8 witness: an unwritable empty filesystem stays empty and the call
reports failure. -/
theorem save_config_no_partial_write_witness :
    (save_config ⟨fun _ => false, []⟩ ⟨"/w", "/c", 8⟩ (.obj []) "f.json" "json").ok = false ∧
    (save_config ⟨fun _ => false, []⟩ ⟨"/w", "/c", 8⟩ (.obj [])
        "f.json" "json").fs.files = [] :=
  have h := save_config_no_partial_write ⟨fun _ => false, []⟩ ⟨"/w", "/c", 8⟩ (.obj [])
    "f.json" "json" (Or.inl rfl) rfl
  ⟨h.1, h.2.1⟩

/-- C10: an unrecognized `format_type` matches none of the three branches:
nothing is written (the filesystem and even an unwritable target are left
untouched), yet the function logs the success message and returns `True`. -/
theorem save_config_unknown_format (fs : FileSys) (g : ConfigGenerator) (config : JValue)
    (filename fmt : String)
    (h1 : fmt ≠ "json") (h2 : fmt ≠ "ini") (h3 : fmt ≠ "text") :
    save_config fs g config filename fmt
      = ⟨fs, [.info ("配置已保存: " ++ joinPath g.work_dir filename)], true⟩ := by
  simp [save_config, h1, h2, h3]

/-- C9: serializing a generator-produced document with the JSON writer
`save_config` uses (`json.dump(…, indent=2, ensure_ascii=False)`, embedded
as `jsonDump`) and parsing the text back yields a structurally equal
document — for the supervisor config and GPU tuning profile of every
context and the workflow graph of every variant. -/
theorem generator_documents_roundtrip (g : ConfigGenerator) (wt : String) :
    parseJson (jsonDump (generate_supervisor_config g))
      = some (generate_supervisor_config g) ∧
    parseJson (jsonDump (generate_comfyui_workflow wt))
      = some (generate_comfyui_workflow wt) ∧
    parseJson (jsonDump (optimize_for_gpu_memory g))
      = some (optimize_for_gpu_memory g) := by
  refine ⟨parseJson_jsonDump _ ?_, parseJson_jsonDump _ ?_, parseJson_jsonDump _ ?_⟩
  · rfl
  · rw [workflow_eq_basic]
    rfl
  · unfold optimize_for_gpu_memory
    by_cases h1 : g.gpu_memory_gb ≥ 24
    · rw [if_pos h1]
      rfl
    · rw [if_neg h1]
      by_cases h2 : g.gpu_memory_gb ≥ 12
      · rw [if_pos h2]
        rfl
      · rw [if_neg h2]
        rfl

/-- C10 witness: the format `"yaml"` creates no file and returns `True`. -/
theorem save_config_unknown_format_witness :
    save_config ⟨fun _ => false, []⟩ ⟨"/w", "/c", 8⟩ (.obj []) "f.yaml" "yaml"
      = ⟨⟨fun _ => false, []⟩, [.info ("配置已保存: " ++ joinPath "/w" "f.yaml")], true⟩ :=
  save_config_unknown_format ⟨fun _ => false, []⟩ ⟨"/w", "/c", 8⟩ (.obj []) "f.yaml" "yaml"
    (by decide) (by decide) (by decide)

end DockerBuilder
